import Mathlib

/-!
Shallow embedding of the PoolFlow job scheduler (victorgarric/PoolFlow).

The embedding follows the source files:
  * `src/PoolFlow/utilities/pool_utilities.py` (class `Calculation`),
  * `src/PoolFlow/dynamic_pool.py` (class `DynamicPool`, the open pool),
  * `src/PoolFlow/static_pool.py`  (class `StaticPool`, the closed pool),
  * `src/PoolFlow/server_pool.py`  (class `ServerPool`, the remote gateway).

Conventions of the embedding:
  * Python integers are `Int`; booleans are `Bool`.
  * The mutable object state of a pool (`init_memory`, `memory`, `pool`,
    `launched`, `is_over`, `count`, `external`) is a `PoolState` record;
    each source statement that mutates it becomes a function
    `PoolState → PoolState`.
  * The concurrent activities of the program (the admission loop `run`,
    the completion monitor `check_status`, the asynchronous job threads
    and the pre/post-processing threads) interleave; they are modelled
    by step relations `DynStep` / `StatStep` whose constructors are the
    individual atomic actions of those loops, plus `DynReach` /
    `StatReach` for the reachable states.  The admission loop of one
    `run` cycle is additionally modelled as the executable function
    `admScanAux` which reproduces Python's index-based `for calc in
    self.pool` traversal, including the index skip caused by
    `self.pool.remove(calc)` during iteration.
  * `datetime` stamps are abstracted to booleans (`endStamped`); the
    target callable and its argument tuple are opaque (`JobTarget`), as
    the scheduler never inspects them.
  * Two ghost (history) fields support the stated invariants and do not
    influence any computation: `admAvail` records the value of
    `self.memory` read by the admission guard when the job was admitted,
    and `releases` counts how many times the pool has released the job's
    cost.
-/

namespace PoolFlow

/-- The target of a job.  `pyNone` is Python's `None` (the gateway passes
`None` as target), `callable` an in-process function (identified by name;
the scheduler never calls into it), and `rawExternalCmd` the
`RawExternalCmd` wrapper that `DynamicPool.submit` substitutes when the
pool was built with `external=True` (dynamic_pool.py line 141). -/
inductive JobTarget where
  | pyNone : JobTarget
  | callable (name : String) : JobTarget
  | rawExternalCmd (file : String) : JobTarget
deriving DecidableEq, Repr, Inhabited

/-- The job record: class `Calculation` of
`src/PoolFlow/utilities/pool_utilities.py` (lines 93-127), restricted to
the fields the scheduling logic reads or writes.  `threadAlive` models
`self.thread.is_alive()`; `preTrig` / `postTrig` record that
`launch_pre_processing` / `launch_post_processing` has been spawned
(each is a `@threaded` function whose effect on the flags lands
asynchronously).  `endStamped` models `end_date` having been set.
`admAvail` and `releases` are ghost fields (see module docstring). -/
structure Calculation where
  id : Nat
  target : JobTarget
  cost : Int
  hasPre : Bool
  hasPost : Bool
  counted : Bool
  isrunning : Bool
  isdead : Bool
  ispreprocessed : Bool
  ispostprocessed : Bool
  preTrig : Bool
  postTrig : Bool
  started : Bool
  threadAlive : Bool
  endStamped : Bool
  admAvail : Int
  releases : Nat
deriving DecidableEq, Repr, Inhabited

/-- `Calculation.__init__` (pool_utilities.py lines 93-127): every flag is
initialised `False` — in particular `self.ispreprocessed = False` even
when `pre_processing is None`. -/
def mkCalculation (target : JobTarget) (cost : Int) (id : Nat)
    (hasPre hasPost : Bool) : Calculation :=
  { id := id, target := target, cost := cost, hasPre := hasPre,
    hasPost := hasPost, counted := false, isrunning := false,
    isdead := false, ispreprocessed := false, ispostprocessed := false,
    preTrig := false, postTrig := false, started := false,
    threadAlive := false, endStamped := false, admAvail := 0,
    releases := 0 }

/-- `Calculation.start` (pool_utilities.py lines 129-135): starts the
thread, stamps the start date and sets `isrunning = True`.  The ghost
field `admAvail` is set to the `self.memory` value the admission guard
read (passed by the caller). -/
def startCalc (c : Calculation) (avail : Int) : Calculation :=
  { c with
    started := true, threadAlive := true, isrunning := true,
    admAvail := avail }

/-- The shared mutable state of a pool object (`DynamicPool.__init__`,
dynamic_pool.py lines 72-109; `StaticPool.__init__`, static_pool.py
lines 66-117).  `memory` is the ledger's available budget,
`init_memory` its total. -/
structure PoolState where
  init_memory : Int
  memory : Int
  pool : List Calculation
  launched : List Calculation
  is_over : Bool
  count : Nat
  external : Bool
deriving DecidableEq, Repr, Inhabited

/-- `DynamicPool.__allocate__` (dynamic_pool.py lines 111-112) and
`StaticPool.allocate` (static_pool.py lines 119-128):
`self.memory += -calc.cost`, with no check, no failure path and no
return value. -/
def allocate (s : PoolState) (c : Calculation) : PoolState :=
  { s with memory := s.memory + -c.cost }

/-- `DynamicPool.__release__` (dynamic_pool.py lines 114-115) and
`StaticPool.release` (static_pool.py lines 130-139):
`self.memory += calc.cost`, with no cap at `init_memory`. -/
def release (s : PoolState) (c : Calculation) : PoolState :=
  { s with memory := s.memory + c.cost }

/-- A fresh `DynamicPool` (dynamic_pool.py lines 72-109): empty queues,
`memory = init_memory = m` (override or OS probe), `count = 1`. -/
def dynInit (m : Int) (ext : Bool) : PoolState :=
  { init_memory := m, memory := m, pool := [], launched := [],
    is_over := false, count := 1, external := ext }

/-- A fresh `StaticPool` (static_pool.py lines 66-117): the whole batch
of `n` jobs (uniform `cost`, ids `1..n`, no pre/post-processing) is
placed in `pool` at construction and `count = n`. -/
def statInit (tname : String) (cost : Int) (m : Int) (n : Nat) : PoolState :=
  { init_memory := m, memory := m,
    pool := (List.range n).map
      (fun k => mkCalculation (JobTarget.callable tname) cost (k + 1) false false),
    launched := [], is_over := false, count := n, external := false }

/-- `DynamicPool.submit` (dynamic_pool.py lines 117-144): appends a new
`Calculation` with id `self.count` and increments the counter.  With
`external=True` the target is replaced by `RawExternalCmd` applied to
the `args` string (the path of the external file). -/
def dynSubmit (s : PoolState) (target : JobTarget) (argStr : String)
    (cost : Int) (hasPre hasPost : Bool) : PoolState :=
  if s.external then
    { s with
      pool := s.pool ++
        [mkCalculation (JobTarget.rawExternalCmd argStr) cost s.count hasPre hasPost],
      count := s.count + 1 }
  else
    { s with
      pool := s.pool ++ [mkCalculation target cost s.count hasPre hasPost],
      count := s.count + 1 }

/-- `DynamicPool.empty` (dynamic_pool.py lines 146-150): `self.pool = []`. -/
def emptyPool (s : PoolState) : PoolState := { s with pool := [] }

/-- Update the job at index `i` of the pending queue in place (a Python
attribute assignment on `self.pool[i]`); out-of-range indices are
no-ops. -/
def setPool (s : PoolState) (i : Nat) (f : Calculation → Calculation) : PoolState :=
  match s.pool[i]? with
  | none => s
  | some c => { s with pool := s.pool.set i (f c) }

/-- Update the job at index `i` of the launched list in place. -/
def setLaunched (s : PoolState) (i : Nat) (f : Calculation → Calculation) : PoolState :=
  match s.launched[i]? with
  | none => s
  | some c => { s with launched := s.launched.set i (f c) }

/-- The admission action of one `run` iteration (dynamic_pool.py lines
178-181 = static_pool.py lines 150-153): `self.__allocate__(calc);
self.launched.append(calc); self.pool.remove(calc);
self.launched[-1].start()`.  `remove` deletes the first occurrence of
the object, i.e. position `i`. -/
def admitAt (s : PoolState) (i : Nat) : PoolState :=
  match s.pool[i]? with
  | none => s
  | some c =>
    { allocate s c with
      launched := s.launched ++ [startCalc c s.memory],
      pool := s.pool.eraseIdx i }

/-- The admission guard of `DynamicPool.run` (dynamic_pool.py line 177):
`self.memory > calc.cost and not calc.isrunning and not calc.isdead and
calc.ispreprocessed`. -/
def dynAdmitGuard (s : PoolState) (i : Nat) : Bool :=
  match s.pool[i]? with
  | none => false
  | some c =>
    decide (c.cost < s.memory) && !c.isrunning && !c.isdead && c.ispreprocessed

/-- The admission guard of `StaticPool.run` (static_pool.py line 149):
`self.memory > calc.cost and calc.ispreprocessed`. -/
def statAdmitGuard (s : PoolState) (i : Nat) : Bool :=
  match s.pool[i]? with
  | none => false
  | some c => decide (c.cost < s.memory) && c.ispreprocessed

/-- The `elif not calc.ispreprocessed` branch guard of both run loops
(dynamic_pool.py line 182, static_pool.py line 154). -/
def preGuard (s : PoolState) (i : Nat) : Bool :=
  match s.pool[i]? with
  | none => false
  | some c => !c.ispreprocessed

/-- Spawning `calc.launch_pre_processing()` (the `@threaded` function of
pool_utilities.py lines 137-148): the call itself only starts a thread;
the flag is set later, by `preDoneAt`. -/
def preTrigAt (s : PoolState) (i : Nat) : PoolState :=
  setPool s i (fun c => { c with preTrig := true })

/-- The spawned `launch_pre_processing` thread finishing: runs the
pre-processing action if there is one (cost-free for the scheduler) and
sets `self.ispreprocessed = True` (pool_utilities.py line 148) — also
when `pre_processing is None`. -/
def preDoneAt (s : PoolState) (i : Nat) : PoolState :=
  setPool s i (fun c => { c with ispreprocessed := true })

/-- Guard for `preDoneAt`: the thread only exists once spawned. -/
def preDoneGuard (s : PoolState) (i : Nat) : Bool :=
  match s.pool[i]? with
  | none => false
  | some c => c.preTrig

/-- The execution thread of launched job `i` terminating (detected later
by the monitor through `thread.is_alive()`). -/
def finishAt (s : PoolState) (i : Nat) : PoolState :=
  setLaunched s i (fun c => { c with threadAlive := false })

/-- Guard for `finishAt`: only a live thread can die. -/
def finishGuard (s : PoolState) (i : Nat) : Bool :=
  match s.launched[i]? with
  | none => false
  | some c => c.threadAlive

/-- Spawning `calc.launch_post_processing()` from the second `for` of the
run loops (dynamic_pool.py lines 186-190, static_pool.py lines
158-162). -/
def postTrigAt (s : PoolState) (i : Nat) : PoolState :=
  setLaunched s i (fun c => { c with postTrig := true })

/-- The spawned `launch_post_processing` thread finishing: sets
`self.ispostprocessed = True` (pool_utilities.py line 161). -/
def postDoneAt (s : PoolState) (i : Nat) : PoolState :=
  setLaunched s i (fun c => { c with ispostprocessed := true })

/-- Guard for `postDoneAt`. -/
def postDoneGuard (s : PoolState) (i : Nat) : Bool :=
  match s.launched[i]? with
  | none => false
  | some c => c.postTrig

/-- The release branch of both monitors (dynamic_pool.py lines 242-247,
static_pool.py lines 213-218): `self.__release__(calc)`, stamp
`end_date`, `isrunning = False; isdead = True; counted = True`.  The
ghost counter `releases` is incremented. -/
def releaseUpdateAt (s : PoolState) (i : Nat) : PoolState :=
  match s.launched[i]? with
  | none => s
  | some c =>
    { release s c with
      launched := s.launched.set i
        { c with
          endStamped := true, isrunning := false, isdead := true,
          counted := true, releases := c.releases + 1 } }

/-- One launched-list iteration of `DynamicPool.check_status`
(dynamic_pool.py lines 241-249): release when
`not calc.thread.is_alive() and not calc.counted`. -/
def dynMonStep (s : PoolState) (i : Nat) : PoolState :=
  match s.launched[i]? with
  | none => s
  | some c =>
    if !c.threadAlive && !c.counted then releaseUpdateAt s i else s

/-- The self-termination condition of `StaticPool.check_status`
(static_pool.py line 219): `self.pool == [] and self.runnings == [] and
len(self.deads) == self.count`. -/
def statTermCond (s : PoolState) : Bool :=
  s.pool.isEmpty && (s.launched.filter (fun c => c.isrunning)).isEmpty &&
    ((s.launched.filter (fun c => c.isdead)).length == s.count)

/-- One launched-list iteration of `StaticPool.check_status`
(static_pool.py lines 212-222): release when `not
calc.thread.is_alive() and not calc.counted and calc.isrunning`, `elif`
the termination condition holds set `self.is_over = True`. -/
def statMonStep (s : PoolState) (i : Nat) : PoolState :=
  match s.launched[i]? with
  | none => s
  | some c =>
    if !c.threadAlive && !c.counted && c.isrunning then releaseUpdateAt s i
    else if statTermCond s then { s with is_over := true }
    else s

/-- One full `for calc in self.launched` pass of
`DynamicPool.check_status`. -/
def dynCheckCycle (s : PoolState) : PoolState :=
  (List.range s.launched.length).foldl dynMonStep s

/-- One full `for calc in self.launched` pass of
`StaticPool.check_status`. -/
def statCheckCycle (s : PoolState) : PoolState :=
  (List.range s.launched.length).foldl statMonStep s

/-- One `for calc in self.pool` pass of the run loops (dynamic_pool.py
lines 176-185, static_pool.py lines 148-157), parameterised by the two
pools' admission guards (the loop bodies are otherwise identical).
Python's `for` walks an internal index that is incremented every
iteration even when the admission branch removed the current element,
so admitting `pool[i]` makes the next iteration read what was
`pool[i+2]` — the element after an admitted job is skipped for the rest
of the cycle.  The fuel argument (`pool.length` at entry) dominates the
number of iterations, since the index grows by one per iteration and
the list never grows during the scan. -/
def admScanAux (guard : PoolState → Nat → Bool) :
    Nat → PoolState → Nat → PoolState
  | 0, s, _ => s
  | fuel + 1, s, i =>
    if i < s.pool.length then
      if guard s i then admScanAux guard fuel (admitAt s i) (i + 1)
      else if preGuard s i then admScanAux guard fuel (preTrigAt s i) (i + 1)
      else admScanAux guard fuel s (i + 1)
    else s

/-- One admission cycle of `DynamicPool.run` (dynamic_pool.py lines
176-185). -/
def dynAdmScan (s : PoolState) : PoolState :=
  admScanAux dynAdmitGuard s.pool.length s 0

/-- One admission cycle of `StaticPool.run` (static_pool.py lines
148-157). -/
def statAdmScan (s : PoolState) : PoolState :=
  admScanAux statAdmitGuard s.pool.length s 0

/-- `DynamicPool.end` (dynamic_pool.py lines 152-171) and
`StaticPool.end` (static_pool.py lines 261-280); the two method bodies
are textually identical.  The returned boolean records whether the red
refusal message `Cannot end pool - Threads are still awaiting` was
printed.  With `now=True` the code only tests `if not self.pool:` and
prints the message; it mutates nothing.  With `now=False` it blocks
until `self.pool` and `self.runnings` drain, then sets
`self.is_over = True` and joins every thread; the blocking wait and the
joins are temporal behaviour outside the state, so the `now=False`
branch is modelled by its final state mutation. -/
def endCall (s : PoolState) (now : Bool) : PoolState × Bool :=
  if now then (if s.pool = [] then (s, true) else (s, false))
  else ({ s with is_over := true }, false)

/-! ### The Remote Submission Gateway (`ServerPool`, server_pool.py) -/

/-- Python's `str.split('!@!')` specialised to the gateway delimiter:
left-to-right, non-overlapping, keeps empty fields.  Defined on the
character list; `acc` accumulates the current field reversed. -/
def splitBang : List Char → List Char → List (List Char)
  | [], acc => [acc.reverse]
  | '!' :: '@' :: '!' :: rest, acc => acc.reverse :: splitBang rest []
  | c :: rest, acc => splitBang rest (c :: acc)

/-- `element[0].split('!@!')` of `ServerPool.run` (server_pool.py line
58). -/
def gwSplit (str : String) : List String :=
  (splitBang str.toList []).map List.asString

/-- A non-empty all-decimal-digit character run, as accepted by Python's
`int()` after sign and whitespace handling. -/
def parseDigits (cs : List Char) : Option Nat :=
  if cs ≠ [] ∧ cs.all Char.isDigit then
    some (cs.foldl (fun n c => 10 * n + (c.toNat - 48)) 0)
  else none

/-- Strip leading and trailing whitespace from a character list. -/
def stripWs (cs : List Char) : List Char :=
  ((cs.dropWhile Char.isWhitespace).reverse.dropWhile Char.isWhitespace).reverse

/-- Python's `int(str)` on a decimal string: optional surrounding
whitespace, optional single `+`/`-` sign, then at least one digit.
`none` models the `ValueError` the builtin raises otherwise. -/
def pyInt (str : String) : Option Int :=
  match stripWs str.toList with
  | '-' :: rest => (parseDigits rest).map (fun n => -(n : Int))
  | '+' :: rest => (parseDigits rest).map (fun n => (n : Int))
  | cs => (parseDigits cs).map (fun n => (n : Int))

/-- Processing one buffered `[data, processed]` element of the gateway
scan (`ServerPool.run`, server_pool.py lines 54-65).  Already-processed
elements are skipped; otherwise the line is split on `!@!`, a 2-field
descriptor yields `self.pool.submit(None, args[0], int(args[1]))`, a
4-field one additionally passes `args[2]` / `args[3]` whose Python
truthiness (non-empty string) makes them pre/post-processing actions,
and any other field count falls through `else: pass`; in every
non-raising branch `element[1] = True`.  `Except.error ()` models the
uncaught `ValueError` of `int()` on a non-numeric cost field, which
kills the gateway's `run` thread. -/
def serverProcessElem (s : PoolState) (e : String × Bool) :
    Except Unit (PoolState × (String × Bool)) :=
  if e.2 then Except.ok (s, e)
  else
    match gwSplit e.1 with
    | [a, b] =>
      match pyInt b with
      | some n => Except.ok (dynSubmit s JobTarget.pyNone a n false false, (e.1, true))
      | none => Except.error ()
    | [a, b, p, q] =>
      match pyInt b with
      | some n =>
        Except.ok (dynSubmit s JobTarget.pyNone a n (!p.isEmpty) (!q.isEmpty), (e.1, true))
      | none => Except.error ()
    | _ => Except.ok (s, (e.1, true))

/-- One full `for element in self.server.data` pass of `ServerPool.run`
over (a snapshot of) the buffered descriptor list. -/
def serverScan (s : PoolState) :
    List (String × Bool) → Except Unit (PoolState × List (String × Bool))
  | [] => Except.ok (s, [])
  | e :: rest =>
    match serverProcessElem s e with
    | Except.error () => Except.error ()
    | Except.ok (s', e') =>
      match serverScan s' rest with
      | Except.error () => Except.error ()
      | Except.ok (s'', rest') => Except.ok (s'', e' :: rest')

/-! ### Interleaving semantics

The concurrent activities of a pool are its admission loop (`run`), its
completion monitor (`check_status`), the job execution threads and the
spawned pre/post-processing threads; `submit` / `empty` / `end` are
called from the producer's thread.  A step relation lists the atomic
actions; reachability closes them under interleaving.  Per the
submission API (`cost` is a positive integer, in the unit of the
ledger), `submit` steps carry `0 < cost`. -/

/-- Atomic actions of a running `DynamicPool` and its clients. -/
inductive DynStep : PoolState → PoolState → Prop where
  | submit (s : PoolState) (target : JobTarget) (argStr : String) (cost : Int)
      (hasPre hasPost : Bool) (hc : 0 < cost) :
      DynStep s (dynSubmit s target argStr cost hasPre hasPost)
  | empty (s : PoolState) : DynStep s (emptyPool s)
  | admitJob (s : PoolState) (i : Nat) (hg : dynAdmitGuard s i = true) :
      DynStep s (admitAt s i)
  | preTrig (s : PoolState) (i : Nat) (hg : preGuard s i = true) :
      DynStep s (preTrigAt s i)
  | preDone (s : PoolState) (i : Nat) (hg : preDoneGuard s i = true) :
      DynStep s (preDoneAt s i)
  | finish (s : PoolState) (i : Nat) (hg : finishGuard s i = true) :
      DynStep s (finishAt s i)
  | monitor (s : PoolState) (i : Nat) : DynStep s (dynMonStep s i)
  | postTrig (s : PoolState) (i : Nat) : DynStep s (postTrigAt s i)
  | postDone (s : PoolState) (i : Nat) (hg : postDoneGuard s i = true) :
      DynStep s (postDoneAt s i)
  | endRequest (s : PoolState) : DynStep s { s with is_over := true }

/-- Atomic actions of a running `StaticPool`: as for the dynamic pool
but without `submit`/`empty` (the batch is fixed at construction) and
with the static monitor step. -/
inductive StatStep : PoolState → PoolState → Prop where
  | admitJob (s : PoolState) (i : Nat) (hg : statAdmitGuard s i = true) :
      StatStep s (admitAt s i)
  | preTrig (s : PoolState) (i : Nat) (hg : preGuard s i = true) :
      StatStep s (preTrigAt s i)
  | preDone (s : PoolState) (i : Nat) (hg : preDoneGuard s i = true) :
      StatStep s (preDoneAt s i)
  | finish (s : PoolState) (i : Nat) (hg : finishGuard s i = true) :
      StatStep s (finishAt s i)
  | monitor (s : PoolState) (i : Nat) : StatStep s (statMonStep s i)
  | postTrig (s : PoolState) (i : Nat) : StatStep s (postTrigAt s i)
  | postDone (s : PoolState) (i : Nat) (hg : postDoneGuard s i = true) :
      StatStep s (postDoneAt s i)
  | endRequest (s : PoolState) : StatStep s { s with is_over := true }

/-- States of a `DynamicPool` reachable from `s₀` by interleaved atomic
actions. -/
inductive DynReach : PoolState → PoolState → Prop where
  | refl (s : PoolState) : DynReach s s
  | tail {s t u : PoolState} : DynReach s t → DynStep t u → DynReach s u

/-- States of a `StaticPool` reachable from `s₀` by interleaved atomic
actions. -/
inductive StatReach : PoolState → PoolState → Prop where
  | refl (s : PoolState) : StatReach s s
  | tail {s t u : PoolState} : StatReach s t → StatStep t u → StatReach s u

/-! ### Ledger accounting

`sumUncounted` totals the costs currently held by launched jobs whose
release has not happened yet; the central accounting fact is
`memory + sumUncounted launched = init_memory`. -/

/-- The ledger debt of one job: its cost while allocated-but-unreleased,
`0` once released. -/
def uncVal (c : Calculation) : Int := if c.counted then 0 else c.cost

/-- Total outstanding (allocated, not yet released) cost of a list of
launched jobs. -/
def sumUncounted : List Calculation → Int
  | [] => 0
  | c :: l => uncVal c + sumUncounted l

lemma sumUncounted_append (l₁ l₂ : List Calculation) :
    sumUncounted (l₁ ++ l₂) = sumUncounted l₁ + sumUncounted l₂ := by
  induction l₁ with
  | nil => simp [sumUncounted]
  | cons c l ih => simp [sumUncounted, ih]; ring

lemma sumUncounted_nonneg (l : List Calculation) (h : ∀ c ∈ l, 0 < c.cost) :
    0 ≤ sumUncounted l := by
  induction l with
  | nil => simp [sumUncounted]
  | cons c l ih =>
    have hc := h c (by simp)
    have hl : 0 ≤ sumUncounted l := ih (fun d hd => h d (by simp [hd]))
    have hu : 0 ≤ uncVal c := by
      unfold uncVal; split
      · exact le_refl 0
      · exact le_of_lt hc
    simpa [sumUncounted] using add_nonneg hu hl

lemma sumUncounted_set (l : List Calculation) (i : Nat) (c' : Calculation)
    (hi : i < l.length) :
    sumUncounted (l.set i c') =
      sumUncounted l - uncVal (l.get ⟨i, hi⟩) + uncVal c' := by
  induction l generalizing i with
  | nil => simp at hi
  | cons c l ih =>
    cases i with
    | zero => simp [sumUncounted]; ring
    | succ i =>
      have hi' : i < l.length := by simpa using hi
      simp [sumUncounted, List.set, ih i hi']
      ring

lemma mem_set_of_ne {α : Type} (l : List α) (i : Nat) (x a : α) (ha : a ∈ l)
    (hne : ∀ hi : i < l.length, a ≠ l.get ⟨i, hi⟩) : a ∈ l.set i x := by
  induction l generalizing i with
  | nil => simp at ha
  | cons c l ih =>
    cases i with
    | zero =>
      have hac : a ≠ c := hne (by simp)
      rcases List.mem_cons.mp ha with h | h
      · exact absurd h hac
      · simp [List.set, h]
    | succ i =>
      rcases List.mem_cons.mp ha with h | h
      · simp [List.set, h]
      · have : a ∈ l.set i x := by
          rcases Nat.lt_or_ge i l.length with hi | hi
          · exact ih i h (fun hj => by
              have hsj : i + 1 < (c :: l).length := by simpa using Nat.succ_lt_succ hj
              have := hne hsj
              simpa using this)
          · rwa [List.set_eq_of_length_le hi]
        simp [List.set, this]

lemma mem_eraseIdx_of_ne {α : Type} (l : List α) (i : Nat) (a : α) (ha : a ∈ l)
    (hne : ∀ hi : i < l.length, a ≠ l.get ⟨i, hi⟩) : a ∈ l.eraseIdx i := by
  induction l generalizing i with
  | nil => simp at ha
  | cons c l ih =>
    cases i with
    | zero =>
      have hac : a ≠ c := hne (by simp)
      rcases List.mem_cons.mp ha with h | h
      · exact absurd h hac
      · simpa [List.eraseIdx]
    | succ i =>
      rcases List.mem_cons.mp ha with h | h
      · simp [List.eraseIdx, h]
      · have : a ∈ l.eraseIdx i := by
          rcases Nat.lt_or_ge i l.length with hi | hi
          · exact ih i h (fun hj => by
              have hsj : i + 1 < (c :: l).length := by simpa using Nat.succ_lt_succ hj
              have := hne hsj
              simpa using this)
          · rwa [List.eraseIdx_eq_self.mpr hi]
        simp [List.eraseIdx, this]

/-! ### The pool invariant -/

/-- State of a job while still in the pending queue: positive cost
(submission API contract), never started, never released. -/
def pendingOK (c : Calculation) : Prop :=
  0 < c.cost ∧ c.counted = false ∧ c.releases = 0 ∧ c.isdead = false ∧
    c.isrunning = false ∧ c.started = false ∧ c.endStamped = false

/-- State of a launched job: positive cost; released exactly once if and
only if `counted`; once counted it is dead and end-stamped; it was
started, and at its admission the available ledger strictly exceeded
its cost (ghost field `admAvail`). -/
def launchedOK (c : Calculation) : Prop :=
  0 < c.cost ∧ c.releases = (if c.counted then 1 else 0) ∧
    (c.counted = true → c.isdead = true ∧ c.endStamped = true) ∧
    c.started = true ∧ c.cost < c.admAvail

/-- The inductive pool invariant: ledger accounting, non-negative
available budget, and the per-job facts. -/
def Inv (s : PoolState) : Prop :=
  s.memory + sumUncounted s.launched = s.init_memory ∧ 0 ≤ s.memory ∧
    (∀ c ∈ s.pool, pendingOK c) ∧ (∀ c ∈ s.launched, launchedOK c)

/-! ### Case-splitting equations for the transition functions -/

lemma setPool_none {s : PoolState} {i : Nat} (f : Calculation → Calculation)
    (h : s.pool[i]? = none) : setPool s i f = s := by
  unfold setPool; rw [h]

lemma setPool_some {s : PoolState} {i : Nat} {c : Calculation}
    (f : Calculation → Calculation) (h : s.pool[i]? = some c) :
    setPool s i f = { s with pool := s.pool.set i (f c) } := by
  unfold setPool; rw [h]

lemma setLaunched_none {s : PoolState} {i : Nat} (f : Calculation → Calculation)
    (h : s.launched[i]? = none) : setLaunched s i f = s := by
  unfold setLaunched; rw [h]

lemma setLaunched_some {s : PoolState} {i : Nat} {c : Calculation}
    (f : Calculation → Calculation) (h : s.launched[i]? = some c) :
    setLaunched s i f = { s with launched := s.launched.set i (f c) } := by
  unfold setLaunched; rw [h]

lemma admitAt_none {s : PoolState} {i : Nat} (h : s.pool[i]? = none) :
    admitAt s i = s := by
  unfold admitAt; rw [h]

lemma admitAt_some {s : PoolState} {i : Nat} {c : Calculation}
    (h : s.pool[i]? = some c) :
    admitAt s i =
      { s with
        memory := s.memory + -c.cost,
        launched := s.launched ++ [startCalc c s.memory],
        pool := s.pool.eraseIdx i } := by
  unfold admitAt allocate; rw [h]

lemma releaseUpdateAt_none {s : PoolState} {i : Nat}
    (h : s.launched[i]? = none) : releaseUpdateAt s i = s := by
  unfold releaseUpdateAt; rw [h]

lemma releaseUpdateAt_some {s : PoolState} {i : Nat} {c : Calculation}
    (h : s.launched[i]? = some c) :
    releaseUpdateAt s i =
      { s with
        memory := s.memory + c.cost,
        launched := s.launched.set i
          { c with
            endStamped := true, isrunning := false, isdead := true,
            counted := true, releases := c.releases + 1 } } := by
  unfold releaseUpdateAt release; rw [h]

lemma dynMonStep_none {s : PoolState} {i : Nat} (h : s.launched[i]? = none) :
    dynMonStep s i = s := by
  unfold dynMonStep; rw [h]

lemma dynMonStep_some {s : PoolState} {i : Nat} {c : Calculation}
    (h : s.launched[i]? = some c) :
    dynMonStep s i =
      if (!c.threadAlive && !c.counted) = true then releaseUpdateAt s i else s := by
  unfold dynMonStep; rw [h]

lemma statMonStep_none {s : PoolState} {i : Nat} (h : s.launched[i]? = none) :
    statMonStep s i = s := by
  unfold statMonStep; rw [h]

lemma statMonStep_some {s : PoolState} {i : Nat} {c : Calculation}
    (h : s.launched[i]? = some c) :
    statMonStep s i =
      if (!c.threadAlive && !c.counted && c.isrunning) = true then releaseUpdateAt s i
      else if statTermCond s = true then { s with is_over := true }
      else s := by
  unfold statMonStep; rw [h]

/-! ### Guard-unpacking lemmas -/

lemma dynAdmitGuard_unpack {s : PoolState} {i : Nat}
    (hg : dynAdmitGuard s i = true) :
    ∃ c, s.pool[i]? = some c ∧ c.cost < s.memory ∧ c.isrunning = false ∧
      c.isdead = false ∧ c.ispreprocessed = true := by
  unfold dynAdmitGuard at hg
  cases hc : s.pool[i]? with
  | none => rw [hc] at hg; cases hg
  | some c =>
    rw [hc] at hg
    refine ⟨c, rfl, ?_⟩
    simp only [Bool.and_eq_true, decide_eq_true_eq, Bool.not_eq_true'] at hg
    exact ⟨hg.1.1.1, hg.1.1.2, hg.1.2, hg.2⟩

lemma statAdmitGuard_unpack {s : PoolState} {i : Nat}
    (hg : statAdmitGuard s i = true) :
    ∃ c, s.pool[i]? = some c ∧ c.cost < s.memory ∧ c.ispreprocessed = true := by
  unfold statAdmitGuard at hg
  cases hc : s.pool[i]? with
  | none => rw [hc] at hg; cases hg
  | some c =>
    rw [hc] at hg
    refine ⟨c, rfl, ?_⟩
    simpa [Bool.and_eq_true, decide_eq_true_eq] using hg

/-! ### Preservation of the invariant by every atomic action -/

lemma inv_setPool (s : PoolState) (i : Nat) (f : Calculation → Calculation)
    (hf : ∀ c, pendingOK c → pendingOK (f c)) (hi : Inv s) :
    Inv (setPool s i f) := by
  rcases hi with ⟨hacc, hmem, hpool, hlaun⟩
  cases hc : s.pool[i]? with
  | none => rw [setPool_none f hc]; exact ⟨hacc, hmem, hpool, hlaun⟩
  | some c =>
    rw [setPool_some f hc]
    refine ⟨hacc, hmem, ?_, hlaun⟩
    intro c' hc'
    rcases List.mem_or_eq_of_mem_set hc' with h | h
    · exact hpool c' h
    · subst h; exact hf c (hpool c (List.getElem?_mem hc))

lemma inv_setLaunched (s : PoolState) (i : Nat) (f : Calculation → Calculation)
    (hf : ∀ c, launchedOK c → launchedOK (f c))
    (hunc : ∀ c, uncVal (f c) = uncVal c) (hi : Inv s) :
    Inv (setLaunched s i f) := by
  rcases hi with ⟨hacc, hmem, hpool, hlaun⟩
  cases hc : s.launched[i]? with
  | none => rw [setLaunched_none f hc]; exact ⟨hacc, hmem, hpool, hlaun⟩
  | some c =>
    rw [setLaunched_some f hc]
    rcases List.getElem?_eq_some.mp hc with ⟨hlen, hget⟩
    have hgetc : s.launched.get ⟨i, hlen⟩ = c := by simpa using hget
    refine ⟨?_, hmem, hpool, ?_⟩
    · dsimp only
      rw [sumUncounted_set s.launched i (f c) hlen, hgetc, hunc c]
      omega
    · intro c' hc'
      rcases List.mem_or_eq_of_mem_set hc' with h | h
      · exact hlaun c' h
      · subst h; exact hf c (hlaun c (List.getElem?_mem hc))

lemma inv_admitAt (s : PoolState) (i : Nat)
    (hm : ∀ c, s.pool[i]? = some c → c.cost < s.memory) (hi : Inv s) :
    Inv (admitAt s i) := by
  rcases hi with ⟨hacc, hmem, hpool, hlaun⟩
  cases hc : s.pool[i]? with
  | none => rw [admitAt_none hc]; exact ⟨hacc, hmem, hpool, hlaun⟩
  | some c =>
    rw [admitAt_some hc]
    have hcm : c.cost < s.memory := hm c hc
    have hcp : pendingOK c := hpool c (List.getElem?_mem hc)
    rcases hcp with ⟨hcost, hcnt, hrel, hdead, hrun, hstart, hstamp⟩
    have huv : uncVal (startCalc c s.memory) = c.cost := by
      simp [uncVal, startCalc, hcnt]
    refine ⟨?_, ?_, ?_, ?_⟩
    · dsimp only
      rw [sumUncounted_append]
      simp only [sumUncounted, huv]
      omega
    · dsimp only
      omega
    · intro c' hc'
      exact hpool c' ((List.eraseIdx_sublist s.pool i).subset hc')
    · intro c' hc'
      rcases List.mem_append.mp hc' with h | h
      · exact hlaun c' h
      · have : c' = startCalc c s.memory := by simpa using h
        subst this
        refine ⟨hcost, ?_, ?_, ?_, ?_⟩
        · simp [startCalc, hcnt, hrel]
        · intro hcounted; simp [startCalc, hcnt] at hcounted
        · simp [startCalc]
        · simpa [startCalc] using hcm

lemma inv_releaseUpdateAt (s : PoolState) (i : Nat)
    (hg : ∀ c, s.launched[i]? = some c → c.counted = false) (hi : Inv s) :
    Inv (releaseUpdateAt s i) := by
  rcases hi with ⟨hacc, hmem, hpool, hlaun⟩
  cases hc : s.launched[i]? with
  | none => rw [releaseUpdateAt_none hc]; exact ⟨hacc, hmem, hpool, hlaun⟩
  | some c =>
    rw [releaseUpdateAt_some hc]
    rcases List.getElem?_eq_some.mp hc with ⟨hlen, hget⟩
    have hgetc : s.launched.get ⟨i, hlen⟩ = c := by simpa using hget
    have hcnt : c.counted = false := hg c hc
    have hok : launchedOK c := hlaun c (List.getElem?_mem hc)
    rcases hok with ⟨hcost, hrel, _, hstart, hadm⟩
    have hrel0 : c.releases = 0 := by simpa [hcnt] using hrel
    have huc : uncVal c = c.cost := by simp [uncVal, hcnt]
    have huc2 : uncVal
        { c with
          endStamped := true, isrunning := false, isdead := true,
          counted := true, releases := c.releases + 1 } = 0 := by
      simp [uncVal]
    refine ⟨?_, ?_, hpool, ?_⟩
    · dsimp only
      rw [sumUncounted_set s.launched i _ hlen, hgetc, huc, huc2]
      omega
    · dsimp only
      omega
    · intro c' hc'
      rcases List.mem_or_eq_of_mem_set hc' with h | h
      · exact hlaun c' h
      · subst h
        refine ⟨hcost, ?_, ?_, hstart, hadm⟩
        · simp [hrel0]
        · intro _; exact ⟨rfl, rfl⟩

lemma inv_dynMonStep (s : PoolState) (i : Nat) (hi : Inv s) :
    Inv (dynMonStep s i) := by
  cases hc : s.launched[i]? with
  | none => rw [dynMonStep_none hc]; exact hi
  | some c =>
    rw [dynMonStep_some hc]
    by_cases hcond : (!c.threadAlive && !c.counted) = true
    · rw [if_pos hcond]
      refine inv_releaseUpdateAt s i ?_ hi
      intro c' hc'
      rw [hc] at hc'
      cases hc'
      simp only [Bool.and_eq_true, Bool.not_eq_true'] at hcond
      exact hcond.2
    · rw [if_neg hcond]
      exact hi

lemma inv_setOver (s : PoolState) (hi : Inv s) : Inv { s with is_over := true } := by
  rcases hi with ⟨hacc, hmem, hpool, hlaun⟩
  exact ⟨hacc, hmem, hpool, hlaun⟩

lemma inv_statMonStep (s : PoolState) (i : Nat) (hi : Inv s) :
    Inv (statMonStep s i) := by
  cases hc : s.launched[i]? with
  | none => rw [statMonStep_none hc]; exact hi
  | some c =>
    rw [statMonStep_some hc]
    by_cases hcond : (!c.threadAlive && !c.counted && c.isrunning) = true
    · rw [if_pos hcond]
      refine inv_releaseUpdateAt s i ?_ hi
      intro c' hc'
      rw [hc] at hc'
      cases hc'
      simp only [Bool.and_eq_true, Bool.not_eq_true'] at hcond
      exact hcond.1.2
    · rw [if_neg hcond]
      by_cases hterm : statTermCond s = true
      · rw [if_pos hterm]
        exact inv_setOver s hi
      · rw [if_neg hterm]
        exact hi

lemma inv_dynSubmit (s : PoolState) (target : JobTarget) (argStr : String)
    (cost : Int) (hasPre hasPost : Bool) (hcost : 0 < cost) (hi : Inv s) :
    Inv (dynSubmit s target argStr cost hasPre hasPost) := by
  rcases hi with ⟨hacc, hmem, hpool, hlaun⟩
  have hfresh : ∀ tg, pendingOK (mkCalculation tg cost s.count hasPre hasPost) := by
    intro tg
    exact ⟨hcost, rfl, rfl, rfl, rfl, rfl, rfl⟩
  unfold dynSubmit
  split
  · refine ⟨hacc, hmem, ?_, hlaun⟩
    intro c hc
    rcases List.mem_append.mp hc with h | h
    · exact hpool c h
    · have : c = mkCalculation (JobTarget.rawExternalCmd argStr) cost s.count hasPre hasPost := by
        simpa using h
      subst this; exact hfresh _
  · refine ⟨hacc, hmem, ?_, hlaun⟩
    intro c hc
    rcases List.mem_append.mp hc with h | h
    · exact hpool c h
    · have : c = mkCalculation target cost s.count hasPre hasPost := by simpa using h
      subst this; exact hfresh _

lemma inv_emptyPool (s : PoolState) (hi : Inv s) : Inv (emptyPool s) := by
  rcases hi with ⟨hacc, hmem, hpool, hlaun⟩
  exact ⟨hacc, hmem, by intro c hc; simp [emptyPool] at hc, hlaun⟩

lemma pendingOK_preTrig (c : Calculation) (h : pendingOK c) :
    pendingOK { c with preTrig := true } := h

lemma pendingOK_preDone (c : Calculation) (h : pendingOK c) :
    pendingOK { c with ispreprocessed := true } := h

lemma launchedOK_finish (c : Calculation) (h : launchedOK c) :
    launchedOK { c with threadAlive := false } := h

lemma launchedOK_postTrig (c : Calculation) (h : launchedOK c) :
    launchedOK { c with postTrig := true } := h

lemma launchedOK_postDone (c : Calculation) (h : launchedOK c) :
    launchedOK { c with ispostprocessed := true } := h

/-- Every atomic action of the open pool preserves the invariant. -/
lemma dynStep_inv {s t : PoolState} (h : DynStep s t) (hi : Inv s) : Inv t := by
  cases h with
  | submit target argStr cost hasPre hasPost hc =>
    exact inv_dynSubmit s target argStr cost hasPre hasPost hc hi
  | empty => exact inv_emptyPool s hi
  | admitJob i hg =>
    refine inv_admitAt s i ?_ hi
    intro c hc
    rcases dynAdmitGuard_unpack hg with ⟨c', hc', hm, _⟩
    rw [hc] at hc'; cases hc'; exact hm
  | preTrig i hg => exact inv_setPool s i _ pendingOK_preTrig hi
  | preDone i hg => exact inv_setPool s i _ pendingOK_preDone hi
  | finish i hg => exact inv_setLaunched s i _ launchedOK_finish (fun c => rfl) hi
  | monitor i => exact inv_dynMonStep s i hi
  | postTrig i => exact inv_setLaunched s i _ launchedOK_postTrig (fun c => rfl) hi
  | postDone i hg => exact inv_setLaunched s i _ launchedOK_postDone (fun c => rfl) hi
  | endRequest => exact inv_setOver s hi

/-- Every atomic action of the closed pool preserves the invariant. -/
lemma statStep_inv {s t : PoolState} (h : StatStep s t) (hi : Inv s) : Inv t := by
  cases h with
  | admitJob i hg =>
    refine inv_admitAt s i ?_ hi
    intro c hc
    rcases statAdmitGuard_unpack hg with ⟨c', hc', hm, _⟩
    rw [hc] at hc'; cases hc'; exact hm
  | preTrig i hg => exact inv_setPool s i _ pendingOK_preTrig hi
  | preDone i hg => exact inv_setPool s i _ pendingOK_preDone hi
  | finish i hg => exact inv_setLaunched s i _ launchedOK_finish (fun c => rfl) hi
  | monitor i => exact inv_statMonStep s i hi
  | postTrig i => exact inv_setLaunched s i _ launchedOK_postTrig (fun c => rfl) hi
  | postDone i hg => exact inv_setLaunched s i _ launchedOK_postDone (fun c => rfl) hi
  | endRequest => exact inv_setOver s hi

lemma dynReach_inv {s₀ s : PoolState} (h : DynReach s₀ s) (h0 : Inv s₀) : Inv s := by
  induction h with
  | refl => exact h0
  | tail hr hs ih => exact dynStep_inv hs ih

lemma statReach_inv {s₀ s : PoolState} (h : StatReach s₀ s) (h0 : Inv s₀) : Inv s := by
  induction h with
  | refl => exact h0
  | tail hr hs ih => exact statStep_inv hs ih

lemma inv_dynInit (m : Int) (ext : Bool) (hm : 0 ≤ m) : Inv (dynInit m ext) := by
  refine ⟨?_, hm, ?_, ?_⟩
  · simp [dynInit, sumUncounted]
  · intro c hc; simp [dynInit] at hc
  · intro c hc; simp [dynInit] at hc

lemma inv_statInit (tname : String) (cost m : Int) (n : Nat)
    (hm : 0 ≤ m) (hcost : 0 < cost) : Inv (statInit tname cost m n) := by
  refine ⟨?_, hm, ?_, ?_⟩
  · simp [statInit, sumUncounted]
  · intro c hc
    simp only [statInit, List.mem_map, List.mem_range] at hc
    rcases hc with ⟨k, _, hk⟩
    subst hk
    exact ⟨hcost, rfl, rfl, rfl, rfl, rfl, rfl⟩
  · intro c hc; simp [statInit] at hc

/-! ### Frame lemmas: which fields each action leaves unchanged -/

lemma setPool_init_memory (s : PoolState) (i : Nat) (f : Calculation → Calculation) :
    (setPool s i f).init_memory = s.init_memory := by
  unfold setPool; cases s.pool[i]? <;> rfl

lemma setPool_memory (s : PoolState) (i : Nat) (f : Calculation → Calculation) :
    (setPool s i f).memory = s.memory := by
  unfold setPool; cases s.pool[i]? <;> rfl

lemma setPool_is_over (s : PoolState) (i : Nat) (f : Calculation → Calculation) :
    (setPool s i f).is_over = s.is_over := by
  unfold setPool; cases s.pool[i]? <;> rfl

lemma setLaunched_init_memory (s : PoolState) (i : Nat) (f : Calculation → Calculation) :
    (setLaunched s i f).init_memory = s.init_memory := by
  unfold setLaunched; cases s.launched[i]? <;> rfl

lemma setLaunched_memory (s : PoolState) (i : Nat) (f : Calculation → Calculation) :
    (setLaunched s i f).memory = s.memory := by
  unfold setLaunched; cases s.launched[i]? <;> rfl

lemma setLaunched_is_over (s : PoolState) (i : Nat) (f : Calculation → Calculation) :
    (setLaunched s i f).is_over = s.is_over := by
  unfold setLaunched; cases s.launched[i]? <;> rfl

lemma admitAt_init_memory (s : PoolState) (i : Nat) :
    (admitAt s i).init_memory = s.init_memory := by
  unfold admitAt allocate; cases s.pool[i]? <;> rfl

lemma admitAt_is_over (s : PoolState) (i : Nat) :
    (admitAt s i).is_over = s.is_over := by
  unfold admitAt allocate; cases s.pool[i]? <;> rfl

lemma releaseUpdateAt_init_memory (s : PoolState) (i : Nat) :
    (releaseUpdateAt s i).init_memory = s.init_memory := by
  unfold releaseUpdateAt release; cases s.launched[i]? <;> rfl

lemma releaseUpdateAt_is_over (s : PoolState) (i : Nat) :
    (releaseUpdateAt s i).is_over = s.is_over := by
  unfold releaseUpdateAt release; cases s.launched[i]? <;> rfl

lemma dynMonStep_init_memory (s : PoolState) (i : Nat) :
    (dynMonStep s i).init_memory = s.init_memory := by
  cases hc : s.launched[i]? with
  | none => rw [dynMonStep_none hc]
  | some c =>
    rw [dynMonStep_some hc]
    split
    · rw [releaseUpdateAt_init_memory]
    · rfl

/-- `DynamicPool.check_status` never touches `is_over` (the open pool
only terminates on an external `end` request). -/
lemma dynMonStep_is_over (s : PoolState) (i : Nat) :
    (dynMonStep s i).is_over = s.is_over := by
  cases hc : s.launched[i]? with
  | none => rw [dynMonStep_none hc]
  | some c =>
    rw [dynMonStep_some hc]
    split
    · rw [releaseUpdateAt_is_over]
    · rfl

lemma statMonStep_init_memory (s : PoolState) (i : Nat) :
    (statMonStep s i).init_memory = s.init_memory := by
  cases hc : s.launched[i]? with
  | none => rw [statMonStep_none hc]
  | some c =>
    rw [statMonStep_some hc]
    split
    · rw [releaseUpdateAt_init_memory]
    · split <;> rfl

/-- Once `is_over` is set it stays set across static monitor steps. -/
lemma statMonStep_is_over_mono (s : PoolState) (i : Nat) (h : s.is_over = true) :
    (statMonStep s i).is_over = true := by
  cases hc : s.launched[i]? with
  | none => rw [statMonStep_none hc]; exact h
  | some c =>
    rw [statMonStep_some hc]
    split
    · rw [releaseUpdateAt_is_over]; exact h
    · split
      · rfl
      · exact h

lemma dynSubmit_init_memory (s : PoolState) (target : JobTarget) (argStr : String)
    (cost : Int) (hasPre hasPost : Bool) :
    (dynSubmit s target argStr cost hasPre hasPost).init_memory = s.init_memory := by
  unfold dynSubmit; split <;> rfl

lemma dynSubmit_memory (s : PoolState) (target : JobTarget) (argStr : String)
    (cost : Int) (hasPre hasPost : Bool) :
    (dynSubmit s target argStr cost hasPre hasPost).memory = s.memory := by
  unfold dynSubmit; split <;> rfl

lemma dynSubmit_is_over (s : PoolState) (target : JobTarget) (argStr : String)
    (cost : Int) (hasPre hasPost : Bool) :
    (dynSubmit s target argStr cost hasPre hasPost).is_over = s.is_over := by
  unfold dynSubmit; split <;> rfl

/-- `init_memory` (the budget fixed at construction) is never mutated by
any open-pool action. -/
lemma dynStep_init_memory {s t : PoolState} (h : DynStep s t) :
    t.init_memory = s.init_memory := by
  cases h with
  | submit target argStr cost hasPre hasPost hc => exact dynSubmit_init_memory ..
  | empty => rfl
  | admitJob i hg => exact admitAt_init_memory s i
  | preTrig i hg => exact setPool_init_memory ..
  | preDone i hg => exact setPool_init_memory ..
  | finish i hg => exact setLaunched_init_memory ..
  | monitor i => exact dynMonStep_init_memory s i
  | postTrig i => exact setLaunched_init_memory ..
  | postDone i hg => exact setLaunched_init_memory ..
  | endRequest => rfl

/-- `init_memory` is never mutated by any closed-pool action. -/
lemma statStep_init_memory {s t : PoolState} (h : StatStep s t) :
    t.init_memory = s.init_memory := by
  cases h with
  | admitJob i hg => exact admitAt_init_memory s i
  | preTrig i hg => exact setPool_init_memory ..
  | preDone i hg => exact setPool_init_memory ..
  | finish i hg => exact setLaunched_init_memory ..
  | monitor i => exact statMonStep_init_memory s i
  | postTrig i => exact setLaunched_init_memory ..
  | postDone i hg => exact setLaunched_init_memory ..
  | endRequest => rfl

lemma dynReach_init_memory {s₀ s : PoolState} (h : DynReach s₀ s) :
    s.init_memory = s₀.init_memory := by
  induction h with
  | refl => rfl
  | tail hr hs ih => rw [dynStep_init_memory hs, ih]

lemma statReach_init_memory {s₀ s : PoolState} (h : StatReach s₀ s) :
    s.init_memory = s₀.init_memory := by
  induction h with
  | refl => rfl
  | tail hr hs ih => rw [statStep_init_memory hs, ih]

lemma setPool_count (s : PoolState) (i : Nat) (f : Calculation → Calculation) :
    (setPool s i f).count = s.count := by
  unfold setPool; cases s.pool[i]? <;> rfl

lemma setLaunched_count (s : PoolState) (i : Nat) (f : Calculation → Calculation) :
    (setLaunched s i f).count = s.count := by
  unfold setLaunched; cases s.launched[i]? <;> rfl

lemma admitAt_count (s : PoolState) (i : Nat) : (admitAt s i).count = s.count := by
  unfold admitAt allocate; cases s.pool[i]? <;> rfl

lemma releaseUpdateAt_count (s : PoolState) (i : Nat) :
    (releaseUpdateAt s i).count = s.count := by
  unfold releaseUpdateAt release; cases s.launched[i]? <;> rfl

lemma statMonStep_count (s : PoolState) (i : Nat) :
    (statMonStep s i).count = s.count := by
  cases hc : s.launched[i]? with
  | none => rw [statMonStep_none hc]
  | some c =>
    rw [statMonStep_some hc]
    split
    · rw [releaseUpdateAt_count]
    · split <;> rfl

/-- `count` — for the closed pool, the batch size fixed at construction
— is never mutated by any closed-pool action. -/
lemma statStep_count {s t : PoolState} (h : StatStep s t) : t.count = s.count := by
  cases h with
  | admitJob i hg => exact admitAt_count s i
  | preTrig i hg => exact setPool_count ..
  | preDone i hg => exact setPool_count ..
  | finish i hg => exact setLaunched_count ..
  | monitor i => exact statMonStep_count s i
  | postTrig i => exact setLaunched_count ..
  | postDone i hg => exact setLaunched_count ..
  | endRequest => rfl

lemma statReach_count {s₀ s : PoolState} (h : StatReach s₀ s) :
    s.count = s₀.count := by
  induction h with
  | refl => rfl
  | tail hr hs ih => rw [statStep_count hs, ih]

/-! ### Strict positivity of the available budget -/

lemma dynStep_memory_pos {s t : PoolState} (h : DynStep s t) (hi : Inv s)
    (hp : 0 < s.memory) : 0 < t.memory := by
  cases h with
  | submit target argStr cost hasPre hasPost hc =>
    rw [dynSubmit_memory]; exact hp
  | empty => exact hp
  | admitJob i hg =>
    rcases dynAdmitGuard_unpack hg with ⟨c, hc, hm, _⟩
    rw [admitAt_some hc]; dsimp only; omega
  | preTrig i hg => simp only [preTrigAt, setPool_memory]; exact hp
  | preDone i hg => simp only [preDoneAt, setPool_memory]; exact hp
  | finish i hg => simp only [finishAt, setLaunched_memory]; exact hp
  | monitor i =>
    cases hc : s.launched[i]? with
    | none => rw [dynMonStep_none hc]; exact hp
    | some c =>
      rw [dynMonStep_some hc]
      split
      · rw [releaseUpdateAt_some hc]; dsimp only
        have hcost := (hi.2.2.2 c (List.getElem?_mem hc)).1
        omega
      · exact hp
  | postTrig i => simp only [postTrigAt, setLaunched_memory]; exact hp
  | postDone i hg => simp only [postDoneAt, setLaunched_memory]; exact hp
  | endRequest => exact hp

lemma statStep_memory_pos {s t : PoolState} (h : StatStep s t) (hi : Inv s)
    (hp : 0 < s.memory) : 0 < t.memory := by
  cases h with
  | admitJob i hg =>
    rcases statAdmitGuard_unpack hg with ⟨c, hc, hm, _⟩
    rw [admitAt_some hc]; dsimp only; omega
  | preTrig i hg => simp only [preTrigAt, setPool_memory]; exact hp
  | preDone i hg => simp only [preDoneAt, setPool_memory]; exact hp
  | finish i hg => simp only [finishAt, setLaunched_memory]; exact hp
  | monitor i =>
    cases hc : s.launched[i]? with
    | none => rw [statMonStep_none hc]; exact hp
    | some c =>
      rw [statMonStep_some hc]
      split
      · rw [releaseUpdateAt_some hc]; dsimp only
        have hcost := (hi.2.2.2 c (List.getElem?_mem hc)).1
        omega
      · split
        · exact hp
        · exact hp
  | postTrig i => simp only [postTrigAt, setLaunched_memory]; exact hp
  | postDone i hg => simp only [postDoneAt, setLaunched_memory]; exact hp
  | endRequest => exact hp

lemma dynReach_memory_pos {s₀ s : PoolState} (h : DynReach s₀ s) (h0 : Inv s₀)
    (hp : 0 < s₀.memory) : 0 < s.memory := by
  induction h with
  | refl => exact hp
  | tail hr hs ih => exact dynStep_memory_pos hs (dynReach_inv hr h0) ih

lemma statReach_memory_pos {s₀ s : PoolState} (h : StatReach s₀ s) (h0 : Inv s₀)
    (hp : 0 < s₀.memory) : 0 < s.memory := by
  induction h with
  | refl => exact hp
  | tail hr hs ih => exact statStep_memory_pos hs (statReach_inv hr h0) ih

/-! ### Termination behaviour of the completion monitors (for C5) -/

/-- If a single static monitor iteration turns `is_over` on, the
self-termination condition of static_pool.py line 219 held at that
moment. -/
lemma statMonStep_sets_over {s : PoolState} {i : Nat}
    (h1 : s.is_over = false) (h2 : (statMonStep s i).is_over = true) :
    s.pool = [] ∧ s.launched.filter (fun c => c.isrunning) = [] ∧
      (s.launched.filter (fun c => c.isdead)).length = s.count := by
  cases hc : s.launched[i]? with
  | none =>
    rw [statMonStep_none hc, h1] at h2
    simp at h2
  | some c =>
    rw [statMonStep_some hc] at h2
    split at h2
    · rw [releaseUpdateAt_is_over, h1] at h2
      simp at h2
    · split at h2
      · rename_i hterm
        simp only [statTermCond, Bool.and_eq_true, List.isEmpty_iff,
          beq_iff_eq] at hterm
        exact ⟨hterm.1.1, hterm.1.2, hterm.2⟩
      · rw [h1] at h2
        simp at h2

/-- If the self-termination condition holds at the start of a
`check_status` cycle of the static pool and at least one job has been
launched, the cycle sets `is_over`. -/
lemma statCheckCycle_sets_over (s : PoolState)
    (hpool : s.pool = [])
    (hrun : s.launched.filter (fun c => c.isrunning) = [])
    (hdead : (s.launched.filter (fun c => c.isdead)).length = s.count)
    (hne : s.launched ≠ []) :
    (statCheckCycle s).is_over = true := by
  have hterm : statTermCond s = true := by
    simp [statTermCond, hpool, hrun, hdead]
  have hfirst : (statMonStep s 0).is_over = true := by
    cases hl : s.launched with
    | nil => exact absurd hl hne
    | cons c rest =>
      have hc0 : s.launched[0]? = some c := by rw [hl]; simp
      have hcr : c.isrunning = false := by
        have hcmem : c ∈ s.launched := by
          rw [hl]; exact List.mem_cons_self c rest
        have := List.filter_eq_nil_iff.mp hrun c hcmem
        simpa using this
      rw [statMonStep_some hc0]
      have hguard : ¬((!c.threadAlive && !c.counted && c.isrunning) = true) := by
        simp [hcr]
      rw [if_neg hguard, if_pos hterm]
  have hmono : ∀ (l : List Nat) (t : PoolState), t.is_over = true →
      (l.foldl statMonStep t).is_over = true := by
    intro l
    induction l with
    | nil => intro t ht; exact ht
    | cons a l ih => intro t ht; exact ih _ (statMonStep_is_over_mono t a ht)
  unfold statCheckCycle
  cases hlen : s.launched.length with
  | zero => exact absurd (List.length_eq_zero.mp hlen) hne
  | succ n =>
    rw [List.range_succ_eq_map, List.foldl_cons]
    exact hmono _ _ hfirst

/-- A full `check_status` cycle of the open pool never changes
`is_over`. -/
lemma dynCheckCycle_is_over (s : PoolState) :
    (dynCheckCycle s).is_over = s.is_over := by
  have h : ∀ (l : List Nat) (t : PoolState),
      (l.foldl dynMonStep t).is_over = t.is_over := by
    intro l
    induction l with
    | nil => intro t; rfl
    | cons a l ih => intro t; rw [List.foldl_cons, ih, dynMonStep_is_over]
  exact h _ s

/-- An admission cycle (of either pool) never changes `is_over`. -/
lemma admScanAux_is_over (guard : PoolState → Nat → Bool) :
    ∀ (fuel : Nat) (s : PoolState) (i : Nat),
      (admScanAux guard fuel s i).is_over = s.is_over := by
  intro fuel
  induction fuel with
  | zero => intro s i; rfl
  | succ fuel ih =>
    intro s i
    unfold admScanAux
    split
    · split
      · rw [ih, admitAt_is_over]
      · split
        · rw [ih]; simp only [preTrigAt, setPool_is_over]
        · rw [ih]
    · rfl

/-! ### The admission scan: blocking and ordering facts -/

lemma setPool_launched (s : PoolState) (i : Nat) (f : Calculation → Calculation) :
    (setPool s i f).launched = s.launched := by
  unfold setPool; cases s.pool[i]? <;> rfl

lemma eraseIdx_drop_succ {α : Type} :
    ∀ (l : List α) (i : Nat), (l.eraseIdx i).drop (i + 1) = l.drop (i + 2) := by
  intro l
  induction l with
  | nil => intro i; simp [List.eraseIdx]
  | cons c t ih =>
    intro i
    cases i with
    | zero => simp [List.eraseIdx]
    | succ i =>
      show ((c :: t).eraseIdx (i + 1)).drop (i + 2) = (c :: t).drop (i + 3)
      rw [List.eraseIdx_cons_succ, List.drop_succ_cons, List.drop_succ_cons, ih i]

lemma set_drop_succ {α : Type} :
    ∀ (l : List α) (i : Nat) (a : α), (l.set i a).drop (i + 1) = l.drop (i + 1) := by
  intro l
  induction l with
  | nil => intro i a; simp
  | cons c t ih =>
    intro i a
    cases i with
    | zero => simp [List.set]
    | succ i =>
      show ((c :: t).set (i + 1) a).drop (i + 2) = (c :: t).drop (i + 2)
      rw [List.set_cons_succ, List.drop_succ_cons, List.drop_succ_cons, ih i a]

/-- Blocking half of the strict admission boundary: during one admission
cycle, a pending preprocessed job whose cost is at least the available
budget is never admitted (it is still pending after the cycle), because
the scan only ever shrinks `memory` and the guard needs
`memory > cost`.  The guard hypothesis covers both pools' guards. -/
lemma admScanAux_blocking (guard : PoolState → Nat → Bool)
    (hg : ∀ (s : PoolState) (i : Nat) (c : Calculation),
      s.pool[i]? = some c → guard s i = true → c.cost < s.memory) :
    ∀ (fuel : Nat) (s : PoolState) (i : Nat) (c : Calculation),
      c ∈ s.pool → c.ispreprocessed = true →
      (∀ d ∈ s.pool, 0 ≤ d.cost) → s.memory ≤ c.cost →
      c ∈ (admScanAux guard fuel s i).pool := by
  intro fuel
  induction fuel with
  | zero =>
    intro s i c hc _ _ _
    exact hc
  | succ fuel ih =>
    intro s i c hc hcpre hcost hmem
    unfold admScanAux
    split
    · rename_i hilen
      have hd : s.pool[i]? = some (s.pool.get ⟨i, hilen⟩) := by
        simp [List.getElem?_eq_getElem hilen]
      split
      · rename_i hguard
        have hdm : (s.pool.get ⟨i, hilen⟩).cost < s.memory := hg s i _ hd hguard
        have hne : ∀ hi : i < s.pool.length, c ≠ s.pool.get ⟨i, hi⟩ := by
          intro hi hceq
          have hclt : c.cost < s.memory := by rw [hceq]; exact hdm
          omega
        refine ih (admitAt s i) (i + 1) c ?_ hcpre ?_ ?_
        · rw [admitAt_some hd]
          exact mem_eraseIdx_of_ne s.pool i c hc hne
        · intro d' hd'
          rw [admitAt_some hd] at hd'
          exact hcost d' ((List.eraseIdx_sublist s.pool i).subset hd')
        · rw [admitAt_some hd]
          dsimp only
          have h0 : 0 ≤ (s.pool.get ⟨i, hilen⟩).cost :=
            hcost _ (List.getElem?_mem hd)
          omega
      · split
        · rename_i hpre
          have hdpre : (s.pool.get ⟨i, hilen⟩).ispreprocessed = false := by
            unfold preGuard at hpre
            rw [hd] at hpre
            simpa using hpre
          have hne : ∀ hi : i < s.pool.length, c ≠ s.pool.get ⟨i, hi⟩ := by
            intro hi hceq
            have : c.ispreprocessed = false := by rw [hceq]; exact hdpre
            rw [hcpre] at this
            simp at this
          refine ih (preTrigAt s i) (i + 1) c ?_ hcpre ?_ ?_
          · simp only [preTrigAt]
            rw [setPool_some _ hd]
            exact mem_set_of_ne s.pool i _ c hc hne
          · intro d' hd'
            simp only [preTrigAt] at hd'
            rw [setPool_some _ hd] at hd'
            rcases List.mem_or_eq_of_mem_set hd' with h | h
            · exact hcost d' h
            · subst h
              have := hcost _ (List.getElem?_mem hd)
              simpa using this
          · simp only [preTrigAt, setPool_memory]
            exact hmem
        · exact ih s (i + 1) c hc hcpre hcost hmem
    · exact hc

/-- Ordering of admissions within one cycle: the jobs admitted during
one admission scan are appended to `launched` in an order whose ids
form a subsequence of the pending queue's ids — the scan walks the
queue left to right and never admits a later job before an earlier one
within the same cycle (though it may skip jobs). -/
lemma admScanAux_order (guard : PoolState → Nat → Bool) :
    ∀ (fuel : Nat) (s : PoolState) (i : Nat),
      ∃ l, (admScanAux guard fuel s i).launched = s.launched ++ l ∧
        List.Sublist (l.map (fun c => c.id))
          ((s.pool.drop i).map (fun c => c.id)) := by
  intro fuel
  induction fuel with
  | zero =>
    intro s i
    exact ⟨[], by simp [admScanAux], by simp⟩
  | succ fuel ih =>
    intro s i
    unfold admScanAux
    split
    · rename_i hilen
      have hd : s.pool[i]? = some (s.pool.get ⟨i, hilen⟩) := by
        simp [List.getElem?_eq_getElem hilen]
      have hdropi : s.pool.drop i = s.pool.get ⟨i, hilen⟩ :: s.pool.drop (i + 1) :=
        List.drop_eq_get_cons hilen
      split
      · rcases ih (admitAt s i) (i + 1) with ⟨l, hl, hs⟩
        refine ⟨startCalc (s.pool.get ⟨i, hilen⟩) s.memory :: l, ?_, ?_⟩
        · rw [hl, admitAt_some hd]
          simp
        · have hsub2 : List.Sublist (l.map (fun c => c.id))
              ((s.pool.drop (i + 1)).map (fun c => c.id)) := by
            have he : (admitAt s i).pool.drop (i + 1) = s.pool.drop (i + 2) := by
              rw [admitAt_some hd]
              exact eraseIdx_drop_succ s.pool i
            rw [he] at hs
            have hdd : s.pool.drop (i + 2) = (s.pool.drop (i + 1)).drop 1 := by
              rw [List.drop_drop]
            rw [hdd] at hs
            exact hs.trans ((List.drop_sublist 1 _).map _)
          rw [hdropi]
          simp only [List.map_cons]
          exact List.Sublist.cons₂ _ hsub2
      · split
        · rcases ih (preTrigAt s i) (i + 1) with ⟨l, hl, hs⟩
          refine ⟨l, ?_, ?_⟩
          · rw [hl]
            simp only [preTrigAt, setPool_launched]
          · have he : (preTrigAt s i).pool.drop (i + 1) = s.pool.drop (i + 1) := by
              simp only [preTrigAt]
              rw [setPool_some _ hd]
              exact set_drop_succ s.pool i _
            rw [he] at hs
            rw [hdropi]
            simp only [List.map_cons]
            exact List.Sublist.cons _ hs
        · rcases ih s (i + 1) with ⟨l, hl, hs⟩
          refine ⟨l, hl, ?_⟩
          rw [hdropi]
          simp only [List.map_cons]
          exact List.Sublist.cons _ hs
    · exact ⟨[], by simp, by simp⟩

/-! ### Single-step equations for the admission scan -/

lemma admScanAux_step_admitJob (guard : PoolState → Nat → Bool) (fuel : Nat)
    (s : PoolState) (i : Nat) (hi : i < s.pool.length) (hg : guard s i = true) :
    admScanAux guard (fuel + 1) s i = admScanAux guard fuel (admitAt s i) (i + 1) := by
  simp only [admScanAux]
  rw [if_pos hi, hg]
  simp

lemma admScanAux_step_preTrig (guard : PoolState → Nat → Bool) (fuel : Nat)
    (s : PoolState) (i : Nat) (hi : i < s.pool.length) (hg : guard s i = false)
    (hp : preGuard s i = true) :
    admScanAux guard (fuel + 1) s i = admScanAux guard fuel (preTrigAt s i) (i + 1) := by
  simp only [admScanAux]
  rw [if_pos hi, hg, hp]
  simp

lemma admScanAux_step_skip (guard : PoolState → Nat → Bool) (fuel : Nat)
    (s : PoolState) (i : Nat) (hi : i < s.pool.length) (hg : guard s i = false)
    (hp : preGuard s i = false) :
    admScanAux guard (fuel + 1) s i = admScanAux guard fuel s (i + 1) := by
  simp only [admScanAux]
  rw [if_pos hi, hg, hp]
  simp

lemma admScanAux_stop (guard : PoolState → Nat → Bool) (fuel : Nat)
    (s : PoolState) (i : Nat) (hi : ¬ i < s.pool.length) :
    admScanAux guard (fuel + 1) s i = s := by
  simp only [admScanAux]
  rw [if_neg hi]

/-! ### Concrete executions

A small open-pool run (budget 10, one job of cost 3 submitted, admitted,
finished and released) and the matching closed-pool run; both are used
to instantiate the reachable-state theorems at concrete inputs. -/

def dEx0 : PoolState := dynInit 10 false

def dEx1 : PoolState := dynSubmit dEx0 (JobTarget.callable "f") "" 3 false false

def dEx2 : PoolState := preTrigAt dEx1 0

def dEx3 : PoolState := preDoneAt dEx2 0

def dEx4 : PoolState := admitAt dEx3 0

def dEx5 : PoolState := finishAt dEx4 0

def dEx6 : PoolState := dynMonStep dEx5 0

lemma dynReach_dEx6 : DynReach dEx0 dEx6 :=
  DynReach.tail
    (DynReach.tail
      (DynReach.tail
        (DynReach.tail
          (DynReach.tail
            (DynReach.tail (DynReach.refl dEx0)
              (DynStep.submit dEx0 (JobTarget.callable "f") "" 3 false false
                (by decide)))
            (DynStep.preTrig dEx1 0 (by decide)))
          (DynStep.preDone dEx2 0 (by decide)))
        (DynStep.admitJob dEx3 0 (by decide)))
      (DynStep.finish dEx4 0 (by decide)))
    (DynStep.monitor dEx5 0)

def tEx0 : PoolState := statInit "f" 3 10 1

def tEx1 : PoolState := preTrigAt tEx0 0

def tEx2 : PoolState := preDoneAt tEx1 0

def tEx3 : PoolState := admitAt tEx2 0

def tEx4 : PoolState := finishAt tEx3 0

def tEx5 : PoolState := statMonStep tEx4 0

lemma statReach_tEx5 : StatReach tEx0 tEx5 :=
  StatReach.tail
    (StatReach.tail
      (StatReach.tail
        (StatReach.tail
          (StatReach.tail (StatReach.refl tEx0)
            (StatStep.preTrig tEx0 0 (by decide)))
          (StatStep.preDone tEx1 0 (by decide)))
        (StatStep.admitJob tEx2 0 (by decide)))
      (StatStep.finish tEx3 0 (by decide)))
    (StatStep.monitor tEx4 0)

/-! ### A reachable three-job open pool exhibiting the scan skip

Budget 100; three cost-10 jobs submitted in order 1, 2, 3; one admission
cycle spawns their (empty) pre-processing, which then completes.  The
resulting state `c4s9` has all three jobs pending and eligible. -/

def c4s1 : PoolState := dynSubmit (dynInit 100 false) (JobTarget.callable "f") "" 10 false false

def c4s2 : PoolState := dynSubmit c4s1 (JobTarget.callable "f") "" 10 false false

def c4s3 : PoolState := dynSubmit c4s2 (JobTarget.callable "f") "" 10 false false

def c4s4 : PoolState := preTrigAt c4s3 0

def c4s5 : PoolState := preTrigAt c4s4 1

def c4s6 : PoolState := preTrigAt c4s5 2

def c4s7 : PoolState := preDoneAt c4s6 0

def c4s8 : PoolState := preDoneAt c4s7 1

def c4s9 : PoolState := preDoneAt c4s8 2

lemma dynReach_c4s9 : DynReach (dynInit 100 false) c4s9 :=
  DynReach.tail
    (DynReach.tail
      (DynReach.tail
        (DynReach.tail
          (DynReach.tail
            (DynReach.tail
              (DynReach.tail
                (DynReach.tail
                  (DynReach.tail (DynReach.refl (dynInit 100 false))
                    (DynStep.submit (dynInit 100 false) (JobTarget.callable "f") ""
                      10 false false (by decide)))
                  (DynStep.submit c4s1 (JobTarget.callable "f") "" 10 false false
                    (by decide)))
                (DynStep.submit c4s2 (JobTarget.callable "f") "" 10 false false
                  (by decide)))
              (DynStep.preTrig c4s3 0 (by decide)))
            (DynStep.preTrig c4s4 1 (by decide)))
          (DynStep.preTrig c4s5 2 (by decide)))
        (DynStep.preDone c4s6 0 (by decide)))
      (DynStep.preDone c4s7 1 (by decide)))
    (DynStep.preDone c4s8 2 (by decide))

/-! ## The claims -/

/-- Shared consequence of the invariant used by C2: release counters
versus the `counted` and `isdead` flags. -/
lemma releases_facts_of_inv {s : PoolState} (hinv : Inv s) (c : Calculation)
    (hc : c ∈ s.pool ∨ c ∈ s.launched) :
    c.releases = (if c.counted then 1 else 0) ∧
      (c.isdead = false → c.releases = 0) ∧
      (c.counted = true → c.releases = 1 ∧ c.isdead = true ∧ c.endStamped = true) := by
  rcases hinv with ⟨_, _, hpool, hlaun⟩
  rcases hc with hc | hc
  · rcases hpool c hc with ⟨_, hcnt, hrel, hdead, _⟩
    refine ⟨by simp [hcnt, hrel], fun _ => hrel, ?_⟩
    intro h
    rw [hcnt] at h
    simp at h
  · rcases hlaun c hc with ⟨_, hrel, hcd, _, _⟩
    refine ⟨hrel, ?_, ?_⟩
    · intro hdead
      cases hcnt : c.counted with
      | false => simp [hrel, hcnt]
      | true =>
        rcases hcd hcnt with ⟨hd, _⟩
        rw [hd] at hdead
        simp at hdead
    · intro hcnt
      rcases hcd hcnt with ⟨hd, hs⟩
      exact ⟨by simp [hrel, hcnt], hd, hs⟩

/-- C1: for every reachable state of an open (`DynamicPool`) or closed
(`StaticPool`) pool — constructed with a budget `m ≥ 0` and fed only
positive-cost jobs, per the submission API — the cost ledger satisfies
`0 ≤ available ≤ total`, where `total` (`init_memory`) is the budget
fixed at construction and `available` (`memory`) is mutated only by
allocate/release. -/
theorem C1_ledger_within_bounds :
    (∀ (m : Int) (ext : Bool) (s : PoolState), 0 ≤ m →
      DynReach (dynInit m ext) s →
      0 ≤ s.memory ∧ s.memory ≤ s.init_memory ∧ s.init_memory = m) ∧
    (∀ (tname : String) (cost m : Int) (n : Nat) (s : PoolState),
      0 ≤ m → 0 < cost → StatReach (statInit tname cost m n) s →
      0 ≤ s.memory ∧ s.memory ≤ s.init_memory ∧ s.init_memory = m) := by
  constructor
  · intro m ext s hm hr
    rcases dynReach_inv hr (inv_dynInit m ext hm) with ⟨hacc, hmem, hpool, hlaun⟩
    refine ⟨hmem, ?_, dynReach_init_memory hr⟩
    have hnn : 0 ≤ sumUncounted s.launched :=
      sumUncounted_nonneg s.launched (fun c hc => (hlaun c hc).1)
    omega
  · intro tname cost m n s hm hc hr
    rcases statReach_inv hr (inv_statInit tname cost m n hm hc) with
      ⟨hacc, hmem, hpool, hlaun⟩
    refine ⟨hmem, ?_, statReach_init_memory hr⟩
    have hnn : 0 ≤ sumUncounted s.launched :=
      sumUncounted_nonneg s.launched (fun c hc => (hlaun c hc).1)
    omega

/-- Witness for C1 at the concrete runs `dEx6` and `tEx5`. -/
theorem C1_witness :
    (0 ≤ dEx6.memory ∧ dEx6.memory ≤ dEx6.init_memory ∧ dEx6.init_memory = 10) ∧
    (0 ≤ tEx5.memory ∧ tEx5.memory ≤ tEx5.init_memory ∧ tEx5.init_memory = 10) :=
  ⟨C1_ledger_within_bounds.1 10 false dEx6 (by decide) dynReach_dEx6,
   C1_ledger_within_bounds.2 "f" 3 10 1 tEx5 (by decide) (by decide) statReach_tEx5⟩

/-- C2: in every reachable state of either pool, every job (pending or
launched) has been released exactly `1` time if `counted`
(`accounted`) is set and `0` times otherwise; a job that is not dead
has never been released; and `counted = true` implies exactly one
release happened, the job is dead, and its completion time was
stamped.  The `counted` flag is what blocks a second release. -/
theorem C2_exactly_once_release :
    (∀ (m : Int) (ext : Bool) (s : PoolState), 0 ≤ m →
      DynReach (dynInit m ext) s → ∀ c : Calculation,
      c ∈ s.pool ∨ c ∈ s.launched →
      c.releases = (if c.counted then 1 else 0) ∧
        (c.isdead = false → c.releases = 0) ∧
        (c.counted = true → c.releases = 1 ∧ c.isdead = true ∧
          c.endStamped = true)) ∧
    (∀ (tname : String) (cost m : Int) (n : Nat) (s : PoolState),
      0 ≤ m → 0 < cost → StatReach (statInit tname cost m n) s →
      ∀ c : Calculation, c ∈ s.pool ∨ c ∈ s.launched →
      c.releases = (if c.counted then 1 else 0) ∧
        (c.isdead = false → c.releases = 0) ∧
        (c.counted = true → c.releases = 1 ∧ c.isdead = true ∧
          c.endStamped = true)) := by
  constructor
  · intro m ext s hm hr c hc
    exact releases_facts_of_inv (dynReach_inv hr (inv_dynInit m ext hm)) c hc
  · intro tname cost m n s hm hco hr c hc
    exact releases_facts_of_inv
      (statReach_inv hr (inv_statInit tname cost m n hm hco)) c hc

/-- Witness for C2: the single released job of the runs `dEx6` and
`tEx5`. -/
theorem C2_witness :
    (dEx6.launched.headI.releases =
        (if dEx6.launched.headI.counted then 1 else 0) ∧
      (dEx6.launched.headI.isdead = false → dEx6.launched.headI.releases = 0) ∧
      (dEx6.launched.headI.counted = true → dEx6.launched.headI.releases = 1 ∧
        dEx6.launched.headI.isdead = true ∧
        dEx6.launched.headI.endStamped = true)) ∧
    (tEx5.launched.headI.releases =
        (if tEx5.launched.headI.counted then 1 else 0) ∧
      (tEx5.launched.headI.isdead = false → tEx5.launched.headI.releases = 0) ∧
      (tEx5.launched.headI.counted = true → tEx5.launched.headI.releases = 1 ∧
        tEx5.launched.headI.isdead = true ∧
        tEx5.launched.headI.endStamped = true)) :=
  ⟨C2_exactly_once_release.1 10 false dEx6 (by decide) dynReach_dEx6
      dEx6.launched.headI (Or.inr (by decide)),
   C2_exactly_once_release.2 "f" 3 10 1 tEx5 (by decide) (by decide)
      statReach_tEx5 tEx5.launched.headI (Or.inr (by decide))⟩

/-- C3: in both pools a job is admitted only when the available budget
strictly exceeds its cost.  Parts 1-2: in every reachable state, every
launched job saw `cost < admAvail` (the `memory` value read by its
admission guard).  Parts 3-4: a pending, preprocessed job whose cost
equals (or exceeds) the available budget survives a whole admission
cycle of `run` still pending — equality blocks admission. -/
theorem C3_strict_admission_boundary :
    (∀ (m : Int) (ext : Bool) (s : PoolState), 0 ≤ m →
      DynReach (dynInit m ext) s →
      ∀ c ∈ s.launched, c.cost < c.admAvail) ∧
    (∀ (tname : String) (cost m : Int) (n : Nat) (s : PoolState),
      0 ≤ m → 0 < cost → StatReach (statInit tname cost m n) s →
      ∀ c ∈ s.launched, c.cost < c.admAvail) ∧
    (∀ (s : PoolState) (c : Calculation), c ∈ s.pool →
      c.ispreprocessed = true → (∀ d ∈ s.pool, 0 ≤ d.cost) →
      s.memory ≤ c.cost → c ∈ (dynAdmScan s).pool) ∧
    (∀ (s : PoolState) (c : Calculation), c ∈ s.pool →
      c.ispreprocessed = true → (∀ d ∈ s.pool, 0 ≤ d.cost) →
      s.memory ≤ c.cost → c ∈ (statAdmScan s).pool) := by
  refine ⟨?_, ?_, ?_, ?_⟩
  · intro m ext s hm hr c hc
    exact ((dynReach_inv hr (inv_dynInit m ext hm)).2.2.2 c hc).2.2.2.2
  · intro tname cost m n s hm hco hr c hc
    exact ((statReach_inv hr (inv_statInit tname cost m n hm hco)).2.2.2 c hc).2.2.2.2
  · intro s c hc hp hcost hm
    refine admScanAux_blocking dynAdmitGuard ?_ s.pool.length s 0 c hc hp hcost hm
    intro s' i' c' hd hgd
    rcases dynAdmitGuard_unpack hgd with ⟨c'', hd', hm', _⟩
    rw [hd] at hd'
    cases hd'
    exact hm'
  · intro s c hc hp hcost hm
    refine admScanAux_blocking statAdmitGuard ?_ s.pool.length s 0 c hc hp hcost hm
    intro s' i' c' hd hgd
    rcases statAdmitGuard_unpack hgd with ⟨c'', hd', hm', _⟩
    rw [hd] at hd'
    cases hd'
    exact hm'

/-- A preprocessed pending job whose cost equals the whole available
budget, for the C3 witness. -/
def c3calc : Calculation :=
  { mkCalculation (JobTarget.callable "f") 3 1 false false with ispreprocessed := true }

/-- A pool whose available budget exactly equals `c3calc`'s cost. -/
def c3state : PoolState :=
  { init_memory := 10, memory := 3, pool := [c3calc], launched := [],
    is_over := false, count := 2, external := false }

/-- Witness for C3 at `dEx6` / `tEx5` (parts 1-2) and the
equality-blocked pool `c3state` (parts 3-4). -/
theorem C3_witness :
    dEx6.launched.headI.cost < dEx6.launched.headI.admAvail ∧
    tEx5.launched.headI.cost < tEx5.launched.headI.admAvail ∧
    c3calc ∈ (dynAdmScan c3state).pool ∧
    c3calc ∈ (statAdmScan c3state).pool :=
  ⟨C3_strict_admission_boundary.1 10 false dEx6 (by decide) dynReach_dEx6
      dEx6.launched.headI (by decide),
   C3_strict_admission_boundary.2.1 "f" 3 10 1 tEx5 (by decide) (by decide)
      statReach_tEx5 tEx5.launched.headI (by decide),
   C3_strict_admission_boundary.2.2.1 c3state c3calc (by decide) (by decide)
      (by decide) (by decide),
   C3_strict_admission_boundary.2.2.2 c3state c3calc (by decide) (by decide)
      (by decide) (by decide)⟩

/-- C10 (implicit claim): with a strictly positive construction-time
budget and strictly positive job costs, the available budget of either
pool stays strictly positive in every reachable state — admission
requires `memory > cost` before subtracting, and releases only add. -/
theorem C10_available_stays_positive :
    (∀ (m : Int) (ext : Bool) (s : PoolState), 0 < m →
      DynReach (dynInit m ext) s → 0 < s.memory) ∧
    (∀ (tname : String) (cost m : Int) (n : Nat) (s : PoolState),
      0 < m → 0 < cost → StatReach (statInit tname cost m n) s →
      0 < s.memory) := by
  constructor
  · intro m ext s hm hr
    exact dynReach_memory_pos hr (inv_dynInit m ext (le_of_lt hm)) hm
  · intro tname cost m n s hm hc hr
    exact statReach_memory_pos hr (inv_statInit tname cost m n (le_of_lt hm) hc) hm

/-- Witness for C10 at the concrete runs `dEx6` and `tEx5`. -/
theorem C10_witness : 0 < dEx6.memory ∧ 0 < tEx5.memory :=
  ⟨C10_available_stays_positive.1 10 false dEx6 (by decide) dynReach_dEx6,
   C10_available_stays_positive.2 "f" 3 10 1 tEx5 (by decide) (by decide)
     statReach_tEx5⟩

/-- C4 (amended): within one admission cycle of either pool, the jobs
admitted during the cycle are appended to `launched` in queue
(submission) order — their ids form a subsequence of the pending
queue's ids.  Across positions, however, the cycle may *skip* an
eligible job: admitting `pool[i]` makes the iteration jump over the
next pending job (Python `remove` during `for`), so a later-submitted
job can be admitted one cycle before an earlier-submitted eligible
one (see the counterexample theorem). -/
theorem C4_cycle_admissions_in_queue_order :
    ∀ s : PoolState,
      (∃ l, (dynAdmScan s).launched = s.launched ++ l ∧
        List.Sublist (l.map (fun c => c.id)) (s.pool.map (fun c => c.id))) ∧
      (∃ l, (statAdmScan s).launched = s.launched ++ l ∧
        List.Sublist (l.map (fun c => c.id)) (s.pool.map (fun c => c.id))) := by
  intro s
  constructor
  · rcases admScanAux_order dynAdmitGuard s.pool.length s 0 with ⟨l, hl, hs⟩
    exact ⟨l, hl, by simpa using hs⟩
  · rcases admScanAux_order statAdmitGuard s.pool.length s 0 with ⟨l, hl, hs⟩
    exact ⟨l, hl, by simpa using hs⟩

/-- Counterexample to C4 as stated: in the reachable state `c4s9`
(budget 100; jobs 1, 2, 3 pending in submission order, each of cost 10
and preprocessed — job 2's admission guard holds, `dynAdmitGuard c4s9 1
= true`), one admission cycle of `DynamicPool.run` admits jobs 1 and 3
and leaves job 2 pending: the later-submitted job 3 is admitted ahead
of the earlier-submitted, equally eligible job 2, because removing job
1 during the `for` iteration skips the scan past job 2. -/
theorem C4_counterexample :
    DynReach (dynInit 100 false) c4s9 ∧
    dynAdmitGuard c4s9 1 = true ∧
    (dynAdmScan c4s9).launched.map (fun c => c.id) = [1, 3] ∧
    (dynAdmScan c4s9).pool.map (fun c => c.id) = [2] :=
  ⟨dynReach_c4s9, by decide, by decide, by decide⟩

/-- C5: termination behaviour of the two completion monitors.
Part 1 (soundness): whenever a static monitor iteration turns
`is_over` on, the condition `pending empty ∧ no running job ∧ dead
count = batch count` held.  Part 2 (completeness): if that condition
holds at the start of a static `check_status` cycle of a non-trivial
batch (`0 < count`), the cycle sets `is_over`.  Part 3: a dynamic
`check_status` cycle never changes `is_over`.  Part 4: neither does an
admission cycle of the open pool — the open pool terminates only
through an external `end` request.  Part 5: for the closed pool,
`count` in any reachable state is exactly the batch size `n` given at
construction. -/
theorem C5_self_termination :
    (∀ (s : PoolState) (i : Nat), s.is_over = false →
      (statMonStep s i).is_over = true →
      s.pool = [] ∧ s.launched.filter (fun c => c.isrunning) = [] ∧
        (s.launched.filter (fun c => c.isdead)).length = s.count) ∧
    (∀ s : PoolState, s.pool = [] →
      s.launched.filter (fun c => c.isrunning) = [] →
      (s.launched.filter (fun c => c.isdead)).length = s.count →
      0 < s.count → (statCheckCycle s).is_over = true) ∧
    (∀ s : PoolState, (dynCheckCycle s).is_over = s.is_over) ∧
    (∀ s : PoolState, (dynAdmScan s).is_over = s.is_over) ∧
    (∀ (tname : String) (cost m : Int) (n : Nat) (s : PoolState),
      StatReach (statInit tname cost m n) s → s.count = n) := by
  refine ⟨?_, ?_, ?_, ?_, ?_⟩
  · intro s i h1 h2
    exact statMonStep_sets_over h1 h2
  · intro s hpool hrun hdead hcnt
    refine statCheckCycle_sets_over s hpool hrun hdead ?_
    intro hnil
    rw [hnil] at hdead
    simp at hdead
    omega
  · intro s
    exact dynCheckCycle_is_over s
  · intro s
    exact admScanAux_is_over dynAdmitGuard s.pool.length s 0
  · intro tname cost m n s hr
    exact statReach_count hr

/-- Witness for C5 at the terminal closed-pool state `tEx5` (batch of
one job, released and counted) and the open-pool state `dEx6`. -/
theorem C5_witness :
    (tEx5.pool = [] ∧ tEx5.launched.filter (fun c => c.isrunning) = [] ∧
      (tEx5.launched.filter (fun c => c.isdead)).length = tEx5.count) ∧
    (statCheckCycle tEx5).is_over = true ∧
    (dynCheckCycle dEx6).is_over = dEx6.is_over ∧
    tEx5.count = 1 :=
  ⟨C5_self_termination.1 tEx5 0 (by decide) (by decide),
   C5_self_termination.2.1 tEx5 (by decide) (by decide) (by decide) (by decide),
   C5_self_termination.2.2.1 dEx6,
   C5_self_termination.2.2.2.2 "f" 3 10 1 tEx5 statReach_tEx5⟩

/-- The `dEx1` pool again: one job pending. -/
def c6pending : PoolState := dEx1

/-- A one-job closed pool, still pending. -/
def c6statPending : PoolState := statInit "f" 3 10 1

/-- A zero-job closed pool: empty pending queue. -/
def c6statEmpty : PoolState := statInit "f" 3 10 0

/-- C6 evaluation (the claim is right, the code is wrong): `end` with
`now=True` (both pools share the same body) tests `if not self.pool:`
— the refusal message `Cannot end pool - Threads are still awaiting` is
printed exactly when the pending queue is EMPTY (no thread is
awaiting), the opposite of the claim; and in neither case does the
force branch set `is_over` or change any state, so a force-`end` with
an empty queue does not terminate the pool either.  The boolean
component of `endCall` records whether the message was printed. -/
theorem C6_end_force_evaluation :
    (endCall c6pending true).2 = false ∧
    (endCall c6pending true).1 = c6pending ∧
    (endCall (dynInit 10 false) true).2 = true ∧
    (endCall (dynInit 10 false) true).1 = dynInit 10 false ∧
    (endCall (dynInit 10 false) true).1.is_over = false ∧
    (endCall c6statPending true).2 = false ∧
    (endCall c6statPending true).1 = c6statPending ∧
    (endCall c6statEmpty true).2 = true ∧
    (endCall c6statEmpty true).1.is_over = false := by
  refine ⟨?_, ?_, ?_, ?_, ?_, ?_, ?_, ?_, ?_⟩ <;> decide

/-- The ledger state used to refute C7: available = 1, total = 10. -/
def c7low : PoolState :=
  { init_memory := 10, memory := 1, pool := [], launched := [],
    is_over := false, count := 1, external := false }

/-- The same ledger at full budget. -/
def c7full : PoolState := { c7low with memory := 10 }

/-- A cost-5 job. -/
def c7calc : Calculation := mkCalculation (JobTarget.callable "f") 5 1 false false

/-- Counterexample to C7 as stated: `allocate` does not fail with
`InsufficientBudget` when `available < cost` — it subtracts
unconditionally, driving the ledger negative (1 - 5 = -4); and
`release` is not capped at `total` — releasing 5 on a full ledger of
10 yields 15 > total. -/
theorem C7_counterexample :
    c7low.memory < c7calc.cost ∧
    (allocate c7low c7calc).memory = -4 ∧
    (allocate c7low c7calc).memory < 0 ∧
    (release c7full c7calc).memory = 15 ∧
    c7full.init_memory < (release c7full c7calc).memory := by
  refine ⟨?_, ?_, ?_, ?_, ?_⟩ <;> decide

/-- C7 (amended): `allocate(cost)` unconditionally subtracts the cost
from `available` and `release(cost)` unconditionally adds it back;
neither checks anything, fails, caps at `total`, or touches `total`
— the only protection against overdraft is the strict `memory > cost`
guard in the admission loops. -/
theorem C7_raw_ledger_mutators :
    ∀ (s : PoolState) (c : Calculation),
      (allocate s c).memory = s.memory - c.cost ∧
      (release s c).memory = s.memory + c.cost ∧
      (allocate s c).init_memory = s.init_memory ∧
      (release s c).init_memory = s.init_memory := by
  intro s c
  refine ⟨?_, rfl, rfl, rfl⟩
  show s.memory + -c.cost = s.memory - c.cost
  omega

/-- A fresh submission with no pre-processing action, of the given
cost. -/
def c8job (cost : Int) : Calculation :=
  mkCalculation (JobTarget.callable "f") cost 1 false false

/-- An open pool with budget `m` holding only that fresh job. -/
def c8pool (cost m : Int) : PoolState :=
  { init_memory := m, memory := m, pool := [c8job cost], launched := [],
    is_over := false, count := 2, external := false }

/-- Counterexample to C8 as stated: a job submitted with no
pre-processing action is NOT immediately `preprocessed=true`
(`Calculation.__init__` sets `ispreprocessed = False` unconditionally),
and on the first admission-loop scan after its submission it is not
admitted even though the budget (100) strictly exceeds its cost (3);
the scan instead spawns the no-op pre-processing thread. -/
theorem C8_counterexample :
    (c8job 3).hasPre = false ∧
    (c8job 3).ispreprocessed = false ∧
    (c8job 3).cost < (c8pool 3 100).memory ∧
    (dynAdmScan (c8pool 3 100)).launched = [] ∧
    (dynAdmScan (c8pool 3 100)).pool.map (fun c => c.preTrig) = [true] := by
  refine ⟨?_, ?_, ?_, ?_, ?_⟩ <;> decide

/-- C8 (amended): a job with no pre-processing action still starts with
`preprocessed = false`; the first admission scan does not admit it but
spawns its (no-op) pre-processing, whose completion sets
`preprocessed = true`; only a later scan admits it (when its cost is
below the budget).  So eligibility is delayed by the pre-processing
round-trip even when there is nothing to pre-process. -/
theorem C8_no_preaction_preprocessed_delay :
    ∀ cost m : Int, cost < m →
      (c8job cost).ispreprocessed = false ∧
      (dynAdmScan (c8pool cost m)).launched = [] ∧
      (dynAdmScan (c8pool cost m)).pool =
        [{ c8job cost with preTrig := true }] ∧
      (dynAdmScan (preDoneAt (dynAdmScan (c8pool cost m)) 0)).launched =
        [startCalc { c8job cost with preTrig := true, ispreprocessed := true } m] ∧
      (dynAdmScan (preDoneAt (dynAdmScan (c8pool cost m)) 0)).pool = [] := by
  intro cost m hlt
  have h0 : (c8pool cost m).pool[0]? = some (c8job cost) := by
    simp [c8pool]
  have hlen : (c8pool cost m).pool.length = 1 := by simp [c8pool]
  have hguard : dynAdmitGuard (c8pool cost m) 0 = false := by
    unfold dynAdmitGuard
    rw [h0]
    simp [c8job, mkCalculation]
  have hpre : preGuard (c8pool cost m) 0 = true := by
    unfold preGuard
    rw [h0]
    simp [c8job, mkCalculation]
  have hscan : dynAdmScan (c8pool cost m) = preTrigAt (c8pool cost m) 0 := by
    unfold dynAdmScan
    rw [hlen,
      admScanAux_step_preTrig dynAdmitGuard 0 _ 0 (by rw [hlen]; omega) hguard hpre]
    rfl
  have hpt : preTrigAt (c8pool cost m) 0 =
      { c8pool cost m with pool := [{ c8job cost with preTrig := true }] } := by
    show setPool (c8pool cost m) 0 _ = _
    rw [setPool_some _ h0]
    simp [c8pool]
  have h1 : ({ c8pool cost m with
      pool := [{ c8job cost with preTrig := true }] : PoolState }).pool[0]? =
      some { c8job cost with preTrig := true } := by simp
  have hs2 : preDoneAt (dynAdmScan (c8pool cost m)) 0 =
      { c8pool cost m with
        pool := [{ c8job cost with preTrig := true, ispreprocessed := true }] } := by
    rw [hscan, hpt]
    show setPool _ 0 _ = _
    rw [setPool_some _ h1]
    simp
  have h0' : ({ c8pool cost m with
      pool := [{ c8job cost with preTrig := true, ispreprocessed := true }]
      : PoolState }).pool[0]? =
      some { c8job cost with preTrig := true, ispreprocessed := true } := by
    simp
  have hguard2 : dynAdmitGuard
      { c8pool cost m with
        pool := [{ c8job cost with preTrig := true, ispreprocessed := true }] }
      0 = true := by
    unfold dynAdmitGuard
    rw [h0']
    simp [c8job, c8pool, mkCalculation, hlt]
  have hadm : admitAt
      { c8pool cost m with
        pool := [{ c8job cost with preTrig := true, ispreprocessed := true }] }
      0 =
      { c8pool cost m with
        memory := m + -cost,
        pool := [],
        launched :=
          [startCalc { c8job cost with preTrig := true, ispreprocessed := true } m] } := by
    rw [admitAt_some h0']
    simp [c8pool, c8job, mkCalculation, List.eraseIdx]
  have hscan2 : dynAdmScan
      { c8pool cost m with
        pool := [{ c8job cost with preTrig := true, ispreprocessed := true }] } =
      { c8pool cost m with
        memory := m + -cost,
        pool := [],
        launched :=
          [startCalc { c8job cost with preTrig := true, ispreprocessed := true } m] } := by
    unfold dynAdmScan
    rw [show ({ c8pool cost m with
        pool := [{ c8job cost with preTrig := true, ispreprocessed := true }]
        : PoolState }).pool.length = 1 by simp,
      admScanAux_step_admitJob dynAdmitGuard 0 _ 0 (by simp) hguard2, hadm]
    rfl
  refine ⟨rfl, ?_, ?_, ?_, ?_⟩
  · rw [hscan, hpt]
    try simp [c8pool]
  · rw [hscan, hpt]
    try simp [c8pool]
  · rw [hs2, hscan2]
    try simp [c8pool]
  · rw [hs2, hscan2]
    try simp [c8pool]

/-- Witness for C8 at cost 3, budget 10. -/
theorem C8_witness :
    (c8job 3).ispreprocessed = false ∧
    (dynAdmScan (c8pool 3 10)).launched = [] ∧
    (dynAdmScan (c8pool 3 10)).pool = [{ c8job 3 with preTrig := true }] ∧
    (dynAdmScan (preDoneAt (dynAdmScan (c8pool 3 10)) 0)).launched =
      [startCalc { c8job 3 with preTrig := true, ispreprocessed := true } 10] ∧
    (dynAdmScan (preDoneAt (dynAdmScan (c8pool 3 10)) 0)).pool = [] :=
  C8_no_preaction_preprocessed_delay 3 10 (by decide)

/-! ### The gateway scan, case by case -/

lemma serverProcessElem_two {s : PoolState} {d a b : String} {n : Int}
    (hsplit : gwSplit d = [a, b]) (hpy : pyInt b = some n) :
    serverProcessElem s (d, false) =
      Except.ok (dynSubmit s JobTarget.pyNone a n false false, (d, true)) := by
  unfold serverProcessElem
  simp [hsplit, hpy]

lemma serverProcessElem_four {s : PoolState} {d a b p q : String} {n : Int}
    (hsplit : gwSplit d = [a, b, p, q]) (hpy : pyInt b = some n) :
    serverProcessElem s (d, false) =
      Except.ok (dynSubmit s JobTarget.pyNone a n (!p.isEmpty) (!q.isEmpty),
        (d, true)) := by
  unfold serverProcessElem
  simp [hsplit, hpy]

lemma serverProcessElem_default {s : PoolState} {d : String}
    (h2 : (gwSplit d).length ≠ 2) (h4 : (gwSplit d).length ≠ 4) :
    serverProcessElem s (d, false) = Except.ok (s, (d, true)) := by
  unfold serverProcessElem
  rw [if_neg (by simp)]
  rcases hg : gwSplit d with _ | ⟨x1, _ | ⟨x2, _ | ⟨x3, _ | ⟨x4, _ | ⟨x5, rest⟩⟩⟩⟩⟩
  · rfl
  · rfl
  · rw [hg] at h2
    simp at h2
  · rfl
  · rw [hg] at h4
    simp at h4
  · rfl

lemma serverScan_single {s s' : PoolState} {e e' : String × Bool}
    (h : serverProcessElem s e = Except.ok (s', e')) :
    serverScan s [e] = Except.ok (s', [e']) := by
  simp only [serverScan]
  rw [h]

/-- C9 (amended): for every line-terminated descriptor handed to the
Remote Submission Gateway, if it splits on `!@!` into exactly 2 fields
`(target, cost)` or exactly 4 fields `(target, cost, preArgs,
postArgs)` *and the cost field parses as an integer*, one gateway scan
produces exactly one `submit` on the backing external pool, appending
exactly one pending job carrying the decoded cost and the
`RawExternalCmd` external-invocation target; a descriptor with any
other field count is silently dropped (marked processed, no submission,
no crash).  A 2- or 4-field descriptor whose cost field is NOT an
integer, however, crashes the gateway (see the counterexample). -/
theorem C9_gateway_decode :
    ∀ (s : PoolState) (d a b p q : String) (n : Int), s.external = true →
      ((gwSplit d = [a, b] → pyInt b = some n →
        serverScan s [(d, false)] =
          Except.ok (dynSubmit s JobTarget.pyNone a n false false, [(d, true)]) ∧
        (dynSubmit s JobTarget.pyNone a n false false).pool =
          s.pool ++ [mkCalculation (JobTarget.rawExternalCmd a) n s.count
            false false]) ∧
      (gwSplit d = [a, b, p, q] → pyInt b = some n →
        serverScan s [(d, false)] =
          Except.ok (dynSubmit s JobTarget.pyNone a n (!p.isEmpty) (!q.isEmpty),
            [(d, true)]) ∧
        (dynSubmit s JobTarget.pyNone a n (!p.isEmpty) (!q.isEmpty)).pool =
          s.pool ++ [mkCalculation (JobTarget.rawExternalCmd a) n s.count
            (!p.isEmpty) (!q.isEmpty)]) ∧
      ((gwSplit d).length ≠ 2 → (gwSplit d).length ≠ 4 →
        serverScan s [(d, false)] = Except.ok (s, [(d, true)]))) := by
  intro s d a b p q n hext
  refine ⟨?_, ?_, ?_⟩
  · intro hsplit hpy
    refine ⟨serverScan_single (serverProcessElem_two hsplit hpy), ?_⟩
    simp [dynSubmit, hext]
  · intro hsplit hpy
    refine ⟨serverScan_single (serverProcessElem_four hsplit hpy), ?_⟩
    simp [dynSubmit, hext]
  · intro h2 h4
    exact serverScan_single (serverProcessElem_default h2 h4)

/-- Counterexample to C9 as stated: the descriptor `myjob!@!abc` splits
into exactly 2 fields, yet the gateway does not submit it and does not
drop it silently — `int('abc')` raises, killing the gateway scan
(`Except.error ()`), contradicting "never crashes the gateway". -/
theorem C9_counterexample :
    gwSplit "myjob!@!abc" = ["myjob", "abc"] ∧
    pyInt "abc" = none ∧
    serverScan (dynInit 10 true) [("myjob!@!abc", false)] = Except.error () := by
  refine ⟨by decide, by decide, by rfl⟩

/-- Witness for C9: the spec scenario `myjob!@!3` against an external
pool of budget 20 — exactly one new pending job of cost 3 with the
`RawExternalCmd` target. -/
theorem C9_witness :
    serverScan (dynInit 20 true) [("myjob!@!3", false)] =
      Except.ok (dynSubmit (dynInit 20 true) JobTarget.pyNone "myjob" 3 false false,
        [("myjob!@!3", true)]) ∧
    (dynSubmit (dynInit 20 true) JobTarget.pyNone "myjob" 3 false false).pool =
      (dynInit 20 true).pool ++
        [mkCalculation (JobTarget.rawExternalCmd "myjob") 3
          (dynInit 20 true).count false false] :=
  (C9_gateway_decode (dynInit 20 true) "myjob!@!3" "myjob" "3" "" "" 3 rfl).1
    (by decide) (by decide)

end PoolFlow

